import Mathlib

/-!
Verification of the waffle puzzle generator (`waffle_maker.py`) and scrambler
(`waffle_mixer.py`).

Shallow embedding conventions:
* a Python 5-letter word is a `List Char` (`Word`); `w[i]` on an in-range index
  is `charAt w i = w.getD i ' '`, and the membership-style test `w[pos] != ch`
  inside candidate filtering is modelled total as `w[pos]? == some ch`
  (identical for in-range indices, which is the only case the program reaches);
* `random.shuffle` is an oracle function `σ : List α → List α` about which the
  theorems assume only what they need (`SubOracleL`: the output draws its
  elements from the input; `PermOracleL`: the output is a permutation);
* `random.choice` is an oracle `choice : List Word → Option Word` returning
  `none` exactly on the empty list, where Python raises `IndexError`; the
  raise is modelled as `Except.error ()`;
* `random.sample(range(n), k)` is modelled by quantifying over any list of
  distinct in-range indices of length `k`;
* Python's stable `list.sort` is modelled by `List.insertionSort` (also a
  stable sort, hence extensionally the same function for a fixed comparator);
* the `defaultdict(list)` position index is modelled as a total function
  `Nat × Char → List Word` defaulting to `[]`, exactly the semantics of
  `pos_index.get((pos, ch), [])`.
-/

/-- A word as handled by the program: a list of characters. -/
abbrev Word := List Char

/-- `charAt w i` models the Python indexing `w[i]` (total, with a default that
only in-range uses ever avoid; the program only indexes in range). -/
def charAt (w : Word) (i : Nat) : Char := w.getD i ' '

/-- A 5x5 grid of optional letters, as built by `build_waffle`
(`None`-initialised cells). -/
abbrev Grid := List (List (Option Char))

/-- Cell lookup `grid[r][c]`, total with `none` default. -/
def cellAt (g : Grid) (r c : Nat) : Option Char := (g.getD r []).getD c none

/-- Shuffle oracle assumption: every element of the output comes from the
input list.  Any permutation (what `random.shuffle` produces) satisfies it. -/
def SubOracleL {α : Type} (σ : List α → List α) : Prop :=
  ∀ l x, x ∈ σ l → x ∈ l

/-- Shuffle oracle assumption: the output is a permutation of the input,
which is exactly what `random.shuffle` guarantees. -/
def PermOracleL {α : Type} (σ : List α → List α) : Prop :=
  ∀ l, (σ l).Perm l

/-- Choice oracle for `random.choice`: it returns an element of the list, and
returns `none` only on the empty list (where Python raises `IndexError`). -/
def ChoiceOracle (choice : List Word → Option Word) : Prop :=
  (∀ l w, choice l = some w → w ∈ l) ∧ (∀ l, choice l = none → l = [])

/-- `VALID_MASK` from `waffle_maker.py`: 1 = letter cell, 0 = hole. -/
def VALID_MASK : List (List Nat) :=
  [[1,1,1,1,1],
   [1,0,1,0,1],
   [1,1,1,1,1],
   [1,0,1,0,1],
   [1,1,1,1,1]]

/-- Python truthiness of `VALID_MASK[r][c]`. -/
def maskAt (r c : Nat) : Bool := (VALID_MASK.getD r []).getD c 0 != 0

/-- Lexicographic `<=` on words, modelling Python string comparison
(code-point lexicographic). -/
def wordLe : List Char → List Char → Bool
  | [], _ => true
  | _ :: _, [] => false
  | a :: as, b :: bs => if a = b then wordLe as bs else decide (a < b)

/-- The `Prop` form of `wordLe`, used as the sort relation for `words.sort()`. -/
def wordRel (a b : Word) : Prop := wordLe a b = true

instance : DecidableRel wordRel := fun a b =>
  inferInstanceAs (Decidable (wordLe a b = true))

/-- Python `str.strip()`: drop whitespace from both ends. -/
def pyStrip (s : List Char) : List Char :=
  ((s.dropWhile Char.isWhitespace).reverse.dropWhile Char.isWhitespace).reverse

/-- `load_words` from `waffle_maker.py`, over the file's lines:
strip/lowercase the non-blank lines, keep the length-5 all-alphabetic ones,
and sort (Python's stable `list.sort`, modelled by stable insertion sort).
Note: no deduplication is performed. -/
def load_words (input : List (List Char)) : List Word :=
  let raw := (input.filter (fun w => !(pyStrip w).isEmpty)).map
    (fun w => (pyStrip w).map Char.toLower)
  let words := raw.filter (fun w => w.length == 5 && w.all Char.isAlpha)
  List.insertionSort wordRel words

/-- The position index: total function defaulting to `[]`, the semantics of
`defaultdict(list)` read through `.get(key, [])`. -/
abbrev PosIndex := Nat × Char → List Word

/-- `pos_index[(pos, ch)].append(w)`. -/
def pos_index_insert (idx : PosIndex) (key : Nat × Char) (w : Word) : PosIndex :=
  fun k => if k = key then idx k ++ [w] else idx k

/-- The inner loop of `build_pos_index`: `for pos, ch in enumerate(w)`. -/
def pos_index_add_word (idx : PosIndex) (w : Word) : PosIndex :=
  w.enum.foldl (fun acc pc => pos_index_insert acc pc w) idx

/-- `build_pos_index` from `waffle_maker.py`. -/
def build_pos_index (words : List Word) : PosIndex :=
  words.foldl pos_index_add_word (fun _ => [])

/-- The constraint check performed against every base-list candidate:
`w[pos] != ch` fails a candidate (modelled totally via `w[pos]?`). -/
def cons_check (constraints : List (Nat × Char)) (w : Word) : Bool :=
  constraints.all (fun pc => w[pc.1]? == some pc.2)

/-- `candidates_with_constraints` from `waffle_maker.py`.  The constraint
dict is an association list (insertion order, unique positions at call
sites); `σ` is the `random.shuffle` oracle; `used` the exclusion set.
`posting_lists.sort(key=len)` is the stable sort by length; the head of the
sorted list is the base list that is then filtered by the used-set test and
by every constraint. -/
def candidates_with_constraints (σ : List Word → List Word) (words : List Word)
    (pos_index : PosIndex) (constraints : List (Nat × Char)) (used : List Word) :
    List Word :=
  if constraints.isEmpty then
    σ (words.filter (fun w => !(used.contains w)))
  else
    let posting_lists := constraints.map (fun pc => pos_index pc)
    match List.insertionSort (fun a b => a.length ≤ b.length) posting_lists with
    | [] => []
    | base :: _ =>
      σ (base.filter (fun w => !(used.contains w) && cons_check constraints w))

/-- `grid[r][c] = v`: mutate row `r` in place (out-of-range writes are
dropped, never reached). -/
def setCell (g : Grid) (r c : Nat) (v : Char) : Grid :=
  g.modify (fun row => row.set c (some v)) r

/-- `grid = [[None]*5 for _ in range(5)]`. -/
def emptyGrid : Grid := List.replicate 5 (List.replicate 5 none)

/-- The row-filling loop of `build_waffle`: `for c in range(5)` writes
`grid[0][c], grid[2][c], grid[4][c]`. -/
def fillRows (w0 w2 w4 : Word) (g : Grid) : Grid :=
  (List.range 5).foldl
    (fun g c =>
      setCell (setCell (setCell g 0 c (charAt w0 c)) 2 c (charAt w2 c)) 4 c (charAt w4 c)) g

/-- The column-filling loop of `build_waffle`: `for r in range(5)` writes
`grid[r][0], grid[r][2], grid[r][4]` (overwriting the intersection cells the
row loop wrote). -/
def fillCols (w1 w3 w5 : Word) (g : Grid) : Grid :=
  (List.range 5).foldl
    (fun g r =>
      setCell (setCell (setCell g r 0 (charAt w1 r)) r 2 (charAt w3 r)) r 4 (charAt w5 r)) g

/-- The grid assembled on success, after both assignment loops. -/
def mkGrid (w0 w1 w2 w3 w4 w5 : Word) : Grid :=
  fillCols w1 w3 w5 (fillRows w0 w2 w4 emptyGrid)

/-- Result of a successful build: the grid, the across triple `(w0,w2,w4)`
and the down triple `(w1,w3,w5)`. -/
abbrev WaffleRes := Grid × (Word × Word × Word) × (Word × Word × Word)

/-- The `for w4 in c4` loop of `build_waffle`: on each `w4`, fetch the `w5`
candidates under all three of its constraints; an empty list removes `w4`
and continues, otherwise the first candidate is accepted. -/
def try_w4 (σ : List Word → List Word) (words : List Word) (idx : PosIndex)
    (w0 w1 w2 w3 : Word) (used : List Word) : List Word → Option WaffleRes
  | [] => none
  | w4 :: rest =>
    match candidates_with_constraints σ words idx
        [(0, charAt w0 4), (2, charAt w2 4), (4, charAt w4 4)] (w4 :: used) with
    | [] => try_w4 σ words idx w0 w1 w2 w3 used rest
    | w5 :: _ =>
      some (mkGrid w0 w1 w2 w3 w4 w5, (w0, w2, w4), (w1, w3, w5))

/-- The `for w3 in c3` loop: compute the `w4` candidates under `w3`'s
constraints and recurse; failure removes `w3` and continues. -/
def try_w3 (σ : List Word → List Word) (words : List Word) (idx : PosIndex)
    (w0 w1 w2 : Word) (used : List Word) : List Word → Option WaffleRes
  | [] => none
  | w3 :: rest =>
    match try_w4 σ words idx w0 w1 w2 w3 (w3 :: used)
        (candidates_with_constraints σ words idx
          [(0, charAt w1 4), (2, charAt w3 4)] (w3 :: used)) with
    | some res => some res
    | none => try_w3 σ words idx w0 w1 w2 used rest

/-- The `for w2 in c2` loop. -/
def try_w2 (σ : List Word → List Word) (words : List Word) (idx : PosIndex)
    (w0 w1 : Word) (used : List Word) : List Word → Option WaffleRes
  | [] => none
  | w2 :: rest =>
    match try_w3 σ words idx w0 w1 w2 (w2 :: used)
        (candidates_with_constraints σ words idx
          [(0, charAt w0 2), (2, charAt w2 2)] (w2 :: used)) with
    | some res => some res
    | none => try_w2 σ words idx w0 w1 used rest

/-- The `for w1 in c1` loop. -/
def try_w1 (σ : List Word → List Word) (words : List Word) (idx : PosIndex)
    (w0 : Word) (used : List Word) : List Word → Option WaffleRes
  | [] => none
  | w1 :: rest =>
    match try_w2 σ words idx w0 w1 (w1 :: used)
        (candidates_with_constraints σ words idx
          [(0, charAt w1 2)] (w1 :: used)) with
    | some res => some res
    | none => try_w1 σ words idx w0 used rest

/-- `build_waffle` from `waffle_maker.py`.  `random.choice(all_words)` picks
`w0` (raising `IndexError`, modelled `Except.error ()`, on an empty list);
the `for _ in range(max_attempts_per_level)` loop always returns during its
first iteration (both the empty-candidate check and loop fall-through return
`None`), so the bound does not appear. -/
def build_waffle (σ : List Word → List Word) (choice : List Word → Option Word)
    (words : List Word) (idx : PosIndex) : Except Unit (Option WaffleRes) :=
  match choice words with
  | none => Except.error ()
  | some w0 =>
    let c1 := candidates_with_constraints σ words idx [(0, charAt w0 0)] [w0]
    Except.ok (try_w1 σ words idx w0 [w0] c1)

/-- `grid_to_masked`: keep letter cells, put `'#'` at the holes. -/
def grid_to_masked (grid : Grid) : Grid :=
  (List.range 5).map (fun r =>
    (List.range 5).map (fun c =>
      if maskAt r c then cellAt grid r c else some '#'))

/-- `masked_to_flat21`: the non-`'#'` cells in row-major order.  (A `none`
cell would make Python's `"".join` fail; on well-formed masked grids every
cell is present, so the `filterMap` never meets that case.) -/
def masked_to_flat21 (m : Grid) : List Char :=
  ((List.range 5).map (fun r =>
    (List.range 5).filterMap (fun c =>
      if cellAt m r c = some '#' then none else cellAt m r c))).flatten

/-- `waffle_to_example`: the record written per generated puzzle
(masked grid, across words, down words, flat 21-letter string). -/
def waffle_to_example (grid : Grid) (across down : Word × Word × Word) :
    Grid × List Word × List Word × List Char :=
  let masked := grid_to_masked grid
  ⟨masked, [across.1, across.2.1, across.2.2], [down.1, down.2.1, down.2.2],
    masked_to_flat21 masked⟩

/-- The `while successes < n and tries < max_tries` loop of `generate_many`,
with the try counter, success counter and records written so far.  An
exception from `build_waffle` propagates. -/
def gen_loop (attempt : Nat → Except Unit (Option WaffleRes)) (n max_tries : Nat)
    (tries successes : Nat) (out : List (Grid × List Word × List Word × List Char)) :
    Except Unit (Nat × Nat × List (Grid × List Word × List Word × List Char)) :=
  if h : successes < n ∧ tries < max_tries then
    match attempt (tries + 1) with
    | Except.error e => Except.error e
    | Except.ok none => gen_loop attempt n max_tries (tries + 1) successes out
    | Except.ok (some (grid, across, down)) =>
      gen_loop attempt n max_tries (tries + 1) (successes + 1)
        (out ++ [waffle_to_example grid across down])
  else
    Except.ok (tries, successes, out)
termination_by max_tries - tries
decreasing_by
  all_goals omega

/-- The reassembly loop of `shuffler` (`waffle_mixer.py`): walk the indices;
a fixed index keeps `flat21[i]`, any other consumes the next shuffled letter
(`to_shuffle[shuffled_ind]`; an exhausted letter list would be Python's
`IndexError`, never reached since the letter count matches). -/
def reassemble (flat21 : List Char) (fixed : List Nat) :
    List Nat → List Char → List Char
  | [], _ => []
  | i :: is, letters =>
    if fixed.contains i then charAt flat21 i :: reassemble flat21 fixed is letters
    else letters.headD ' ' :: reassemble flat21 fixed is letters.tail

/-- `shuffler` from `waffle_mixer.py`.  `fixed_positions` stands for the
outcome of `random.sample` (the theorems assume it is a duplicate-free list
of in-range indices of length `fixed_count`); `σ1` is the first
`random.shuffle` and `σ2` the second (which reshuffles the already-shuffled
letters in place), used only when the first reassembly equals the target. -/
def shuffler (σ1 σ2 : List Char → List Char) (fixed_positions : List Nat)
    (flat21 : List Char) : List Char × List Nat :=
  let indices := List.range flat21.length
  let to_shuffle := (indices.filter (fun i => !(fixed_positions.contains i))).map
    (charAt flat21)
  let ts1 := σ1 to_shuffle
  let shuffled := reassemble flat21 fixed_positions indices ts1
  let result :=
    if shuffled = flat21 then reassemble flat21 fixed_positions indices (σ2 ts1)
    else shuffled
  (result, List.insertionSort (· ≤ ·) fixed_positions)

/-- Number of letter cells strictly before `(r, c)` in row-major order,
skipping holes: the flat index a letter cell maps to. -/
def flatIndex (r c : Nat) : Nat :=
  ((List.range (5 * r + c)).filter (fun k => maskAt (k / 5) (k % 5))).length

/-- Modelled from the spec: the re-expansion inverse of `masked_to_flat21` is
not part of the source; per §3 ("FlatLetters ... must be stable and
reversible given the hole mask") it places the flat string's characters back
in row-major hole-skipping order and restores the `'#'` marker at the four
hole cells. -/
def flat21_to_masked (s : List Char) : Grid :=
  (List.range 5).map (fun r =>
    (List.range 5).map (fun c =>
      if maskAt r c then some (s.getD (flatIndex r c) ' ') else some '#'))

/-- `generate_many` from `waffle_maker.py`: load the words, build the index
once, then retry `build_waffle` (each try with its own randomness, indexed by
the try counter) until `n` puzzles are produced or `max_tries` is reached. -/
def generate_many (σ : Nat → List Word → List Word)
    (choice : Nat → List Word → Option Word) (input : List (List Char))
    (n max_tries : Nat) :
    Except Unit (Nat × Nat × List (Grid × List Word × List Word × List Char)) :=
  let words := load_words input
  let pos_index := build_pos_index words
  gen_loop (fun t => build_waffle (σ t) (choice t) words pos_index) n max_tries 0 0 []

/-- Demo word list for concrete witnesses: the six words of one consistent
waffle (rows `abcde/ijklm/qrstu`, columns `afinq/cgkos/ehmpu`). -/
def dw0 : Word := ['a','b','c','d','e']

def dw1 : Word := ['a','f','i','n','q']

def dw2 : Word := ['i','j','k','l','m']

def dw3 : Word := ['c','g','k','o','s']

def dw4 : Word := ['q','r','s','t','u']

def dw5 : Word := ['e','h','m','p','u']

def demoWords : List Word := [dw0, dw1, dw2, dw3, dw4, dw5]

/-- Head-picking choice oracle used in witnesses. -/
def headChoice : List Word → Option Word := fun l => l.head?

-- concrete evaluation checks of the embedding on the demo words
example :
    build_waffle id headChoice demoWords (build_pos_index demoWords) =
      Except.ok (some (mkGrid dw0 dw1 dw2 dw3 dw4 dw5, (dw0, dw2, dw4), (dw1, dw3, dw5))) := by
  rfl

example : cellAt (mkGrid dw0 dw1 dw2 dw3 dw4 dw5) 1 1 = none := by rfl

example :
    grid_to_masked (mkGrid dw0 dw1 dw2 dw3 dw4 dw5) =
      [[some 'a', some 'b', some 'c', some 'd', some 'e'],
       [some 'f', some '#', some 'g', some '#', some 'h'],
       [some 'i', some 'j', some 'k', some 'l', some 'm'],
       [some 'n', some '#', some 'o', some '#', some 'p'],
       [some 'q', some 'r', some 's', some 't', some 'u']] := by rfl

example :
    masked_to_flat21 (grid_to_masked (mkGrid dw0 dw1 dw2 dw3 dw4 dw5)) =
      ['a','b','c','d','e','f','g','h','i','j','k','l','m','n','o','p','q','r','s','t','u'] := by
  rfl

example :
    flat21_to_masked (masked_to_flat21 (grid_to_masked (mkGrid dw0 dw1 dw2 dw3 dw4 dw5))) =
      grid_to_masked (mkGrid dw0 dw1 dw2 dw3 dw4 dw5) := by rfl

example :
    shuffler id List.reverse [1] ['a','b','c'] = (['c','b','a'], [1]) := by rfl

example :
    load_words [['a','a','a','a','a'], [' ','b','c','d','e','f',' '], ['a','a','a','a','a'], ['x','y','z']] =
      [['a','a','a','a','a'], ['a','a','a','a','a'], ['b','c','d','e','f']] := by rfl

/-- All constraints of an association-list constraint map hold on `w`. -/
def consOK (constraints : List (Nat × Char)) (w : Word) : Prop :=
  ∀ pc ∈ constraints, w[pc.1]? = some pc.2

/-- Soundness of candidate filtering: whatever the shuffle does (as long as it
invents no elements), every returned candidate is outside the exclusion set
and satisfies every constraint of the map. -/
theorem candidates_mem {σ : List Word → List Word} {words : List Word}
    {idx : PosIndex} {cons : List (Nat × Char)} {used : List Word} {w : Word}
    (hσ : SubOracleL σ)
    (hw : w ∈ candidates_with_constraints σ words idx cons used) :
    w ∉ used ∧ consOK cons w := by
  unfold candidates_with_constraints at hw
  split at hw
  case isTrue hc =>
    have hmem := hσ _ _ hw
    rw [List.mem_filter] at hmem
    refine ⟨by simpa using hmem.2, ?_⟩
    intro pc hpc
    rw [List.isEmpty_iff] at hc
    simp [hc] at hpc
  case isFalse hc =>
    dsimp only at hw
    split at hw
    · exact absurd hw (List.not_mem_nil w)
    · have hmem := hσ _ _ hw
      rw [List.mem_filter, Bool.and_eq_true] at hmem
      obtain ⟨-, hu, hp⟩ := hmem
      refine ⟨by simpa using hu, ?_⟩
      intro pc hpc
      have := List.all_eq_true.mp hp pc hpc
      simpa using this

/-- From the stored `w[k]? = some c` form to the Python reading `w[k] = c`. -/
theorem charAt_of_getElem? {w : Word} {k : Nat} {c : Char} (h : w[k]? = some c) :
    charAt w k = c := by
  unfold charAt
  rw [List.getD_eq_getElem?_getD, h]
  rfl

/-- Effect of one word's enumeration pass on one index key, generalized over
the enumeration start. -/
theorem enumFrom_fold_insert_apply (w : Word) :
    ∀ (l : List Char) (n : Nat) (idx : PosIndex) (p : Nat) (c : Char),
      ((List.enumFrom n l).foldl (fun acc pc => pos_index_insert acc pc w) idx) (p, c) =
        idx (p, c) ++ (if n ≤ p ∧ l[p - n]? = some c then [w] else []) := by
  intro l
  induction l with
  | nil =>
    intro n idx p c
    simp [List.enumFrom]
  | cons a as ih =>
    intro n idx p c
    rw [List.enumFrom_cons, List.foldl_cons, ih (n + 1)]
    by_cases hp : p = n
    · subst hp
      have h1 : ¬(p + 1 ≤ p) := by omega
      have h2 : p - p = 0 := by omega
      by_cases hc : c = a
      · subst hc
        simp [pos_index_insert, h1, h2]
      · simp [pos_index_insert, h1, h2, Prod.ext_iff, hc, Ne.symm hc]
    · have hne : ((p, c) : Nat × Char) ≠ (n, a) := by simp [Prod.ext_iff, hp]
      rw [pos_index_insert, if_neg hne]
      by_cases hnp : n + 1 ≤ p
      · have h3 : n ≤ p := by omega
        have h4 : p - n = (p - (n + 1)) + 1 := by omega
        simp [hnp, h3, h4]
      · have h5 : ¬(n ≤ p) := by omega
        simp [hnp, h5]

/-- One insertion pass of `build_pos_index` appends `w` exactly at the keys
`(p, w[p])`. -/
theorem pos_index_add_word_apply (idx : PosIndex) (w : Word) (p : Nat) (c : Char) :
    pos_index_add_word idx w (p, c) =
      idx (p, c) ++ (if w[p]? = some c then [w] else []) := by
  unfold pos_index_add_word
  rw [show w.enum = List.enumFrom 0 w from rfl, enumFrom_fold_insert_apply]
  simp

/-- The index characterization: `build_pos_index words (p, c)` is exactly the
words with letter `c` at position `p`, in word-list order. -/
theorem build_pos_index_apply (words : List Word) (p : Nat) (c : Char) :
    build_pos_index words (p, c) = words.filter (fun w => w[p]? == some c) := by
  suffices h : ∀ idx : PosIndex,
      (words.foldl pos_index_add_word idx) (p, c) =
        idx (p, c) ++ words.filter (fun w => w[p]? == some c) by
    simpa using h (fun _ => [])
  induction words with
  | nil => intro idx; simp
  | cons w ws ih =>
    intro idx
    rw [List.foldl_cons, ih, pos_index_add_word_apply]
    by_cases hc : w[p]? = some c
    · simp [List.filter_cons, hc]
    · simp [List.filter_cons, hc]

/-- Every word stored in the index is from the word list. -/
theorem build_pos_index_mem {words : List Word} {p : Nat} {c : Char} {w : Word}
    (h : w ∈ build_pos_index words (p, c)) : w ∈ words := by
  rw [build_pos_index_apply] at h
  exact (List.mem_filter.mp h).1

/-- Every candidate returned against the real index is a word of the list. -/
theorem candidates_mem_words {σ : List Word → List Word} {words : List Word}
    {cons : List (Nat × Char)} {used : List Word} {w : Word}
    (hσ : SubOracleL σ)
    (hw : w ∈ candidates_with_constraints σ words (build_pos_index words) cons used) :
    w ∈ words := by
  unfold candidates_with_constraints at hw
  split at hw
  · exact (List.mem_filter.mp (hσ _ _ hw)).1
  · dsimp only at hw
    split at hw
    · exact absurd hw (List.not_mem_nil w)
    · next base rest heq =>
      have hbase : base ∈ List.insertionSort (fun a b => a.length ≤ b.length)
          (cons.map (fun pc => build_pos_index words pc)) := by
        rw [heq]; exact List.mem_cons_self _ _
      have hbase' := (List.perm_insertionSort
        (fun (a b : List Word) => a.length ≤ b.length) _).mem_iff.mp hbase
      obtain ⟨pc, _, hpc⟩ := List.mem_map.mp hbase'
      have hmem := (List.mem_filter.mp (hσ _ _ hw)).1
      rw [← hpc] at hmem
      obtain ⟨p, c⟩ := pc
      exact build_pos_index_mem hmem

/-- Soundness of the `w4` loop: a success yields a `w4` from the candidate
list and a `w5` from a candidate query carrying all three of `w5`'s
constraints and the enlarged exclusion set. -/
theorem try_w4_sound {σ : List Word → List Word} {words : List Word}
    {w0 w1 w2 w3 : Word} (hσ : SubOracleL σ) :
    ∀ (c4 used : List Word) (res : WaffleRes),
      (∀ w ∈ c4, w ∈ words ∧ w ∉ used ∧ w[0]? = some (charAt w1 4) ∧
        w[2]? = some (charAt w3 4)) →
      try_w4 σ words (build_pos_index words) w0 w1 w2 w3 used c4 = some res →
      ∃ w4 w5 : Word,
        res = (mkGrid w0 w1 w2 w3 w4 w5, (w0, w2, w4), (w1, w3, w5)) ∧
        (w4 ∈ words ∧ w4 ∉ used ∧ w4[0]? = some (charAt w1 4) ∧
          w4[2]? = some (charAt w3 4)) ∧
        (w5 ∈ words ∧ w5 ∉ w4 :: used ∧ w5[0]? = some (charAt w0 4) ∧
          w5[2]? = some (charAt w2 4) ∧ w5[4]? = some (charAt w4 4)) := by
  intro c4
  induction c4 with
  | nil => intro used res _ hres; simp [try_w4] at hres
  | cons w4 rest ih =>
    intro used res hall hres
    simp only [try_w4] at hres
    split at hres
    · exact ih used res (fun w hw => hall w (List.mem_cons_of_mem _ hw)) hres
    · next w5 tl heq =>
      obtain ⟨h4w, h4u, h4a, h4b⟩ := hall w4 (List.mem_cons_self _ _)
      have hw5 : w5 ∈ candidates_with_constraints σ words (build_pos_index words)
          [(0, charAt w0 4), (2, charAt w2 4), (4, charAt w4 4)] (w4 :: used) := by
        rw [heq]; exact List.mem_cons_self _ _
      obtain ⟨hw5u, hw5c⟩ := candidates_mem hσ hw5
      injection hres with hres
      exact ⟨w4, w5, hres.symm, ⟨h4w, h4u, h4a, h4b⟩,
        ⟨candidates_mem_words hσ hw5, hw5u, hw5c (0, charAt w0 4) (by simp),
          hw5c (2, charAt w2 4) (by simp), hw5c (4, charAt w4 4) (by simp)⟩⟩

/-- Soundness of the `w3` loop. -/
theorem try_w3_sound {σ : List Word → List Word} {words : List Word}
    {w0 w1 w2 : Word} (hσ : SubOracleL σ) :
    ∀ (c3 used : List Word) (res : WaffleRes),
      (∀ w ∈ c3, w ∈ words ∧ w ∉ used ∧ w[0]? = some (charAt w0 2) ∧
        w[2]? = some (charAt w2 2)) →
      try_w3 σ words (build_pos_index words) w0 w1 w2 used c3 = some res →
      ∃ w3 w4 w5 : Word,
        res = (mkGrid w0 w1 w2 w3 w4 w5, (w0, w2, w4), (w1, w3, w5)) ∧
        (w3 ∈ words ∧ w3 ∉ used ∧ w3[0]? = some (charAt w0 2) ∧
          w3[2]? = some (charAt w2 2)) ∧
        (w4 ∈ words ∧ w4 ∉ w3 :: used ∧ w4[0]? = some (charAt w1 4) ∧
          w4[2]? = some (charAt w3 4)) ∧
        (w5 ∈ words ∧ w5 ∉ w4 :: w3 :: used ∧ w5[0]? = some (charAt w0 4) ∧
          w5[2]? = some (charAt w2 4) ∧ w5[4]? = some (charAt w4 4)) := by
  intro c3
  induction c3 with
  | nil => intro used res _ hres; simp [try_w3] at hres
  | cons w3 rest ih =>
    intro used res hall hres
    simp only [try_w3] at hres
    split at hres
    · next res' heq =>
      obtain ⟨h3w, h3u, h3a, h3b⟩ := hall w3 (List.mem_cons_self _ _)
      have hc4 : ∀ w ∈ candidates_with_constraints σ words (build_pos_index words)
          [(0, charAt w1 4), (2, charAt w3 4)] (w3 :: used),
          w ∈ words ∧ w ∉ w3 :: used ∧ w[0]? = some (charAt w1 4) ∧
            w[2]? = some (charAt w3 4) := by
        intro w hw
        obtain ⟨hu, hc⟩ := candidates_mem hσ hw
        exact ⟨candidates_mem_words hσ hw, hu, hc (0, charAt w1 4) (by simp),
          hc (2, charAt w3 4) (by simp)⟩
      obtain ⟨w4, w5, hres', h4, h5⟩ := try_w4_sound hσ _ _ _ hc4 heq
      injection hres with hres
      exact ⟨w3, w4, w5, by rw [← hres, hres'], ⟨h3w, h3u, h3a, h3b⟩, h4, h5⟩
    · exact ih used res (fun w hw => hall w (List.mem_cons_of_mem _ hw)) hres

/-- Soundness of the `w2` loop. -/
theorem try_w2_sound {σ : List Word → List Word} {words : List Word}
    {w0 w1 : Word} (hσ : SubOracleL σ) :
    ∀ (c2 used : List Word) (res : WaffleRes),
      (∀ w ∈ c2, w ∈ words ∧ w ∉ used ∧ w[0]? = some (charAt w1 2)) →
      try_w2 σ words (build_pos_index words) w0 w1 used c2 = some res →
      ∃ w2 w3 w4 w5 : Word,
        res = (mkGrid w0 w1 w2 w3 w4 w5, (w0, w2, w4), (w1, w3, w5)) ∧
        (w2 ∈ words ∧ w2 ∉ used ∧ w2[0]? = some (charAt w1 2)) ∧
        (w3 ∈ words ∧ w3 ∉ w2 :: used ∧ w3[0]? = some (charAt w0 2) ∧
          w3[2]? = some (charAt w2 2)) ∧
        (w4 ∈ words ∧ w4 ∉ w3 :: w2 :: used ∧ w4[0]? = some (charAt w1 4) ∧
          w4[2]? = some (charAt w3 4)) ∧
        (w5 ∈ words ∧ w5 ∉ w4 :: w3 :: w2 :: used ∧ w5[0]? = some (charAt w0 4) ∧
          w5[2]? = some (charAt w2 4) ∧ w5[4]? = some (charAt w4 4)) := by
  intro c2
  induction c2 with
  | nil => intro used res _ hres; simp [try_w2] at hres
  | cons w2 rest ih =>
    intro used res hall hres
    simp only [try_w2] at hres
    split at hres
    · next res' heq =>
      obtain ⟨h2w, h2u, h2a⟩ := hall w2 (List.mem_cons_self _ _)
      have hc3 : ∀ w ∈ candidates_with_constraints σ words (build_pos_index words)
          [(0, charAt w0 2), (2, charAt w2 2)] (w2 :: used),
          w ∈ words ∧ w ∉ w2 :: used ∧ w[0]? = some (charAt w0 2) ∧
            w[2]? = some (charAt w2 2) := by
        intro w hw
        obtain ⟨hu, hc⟩ := candidates_mem hσ hw
        exact ⟨candidates_mem_words hσ hw, hu, hc (0, charAt w0 2) (by simp),
          hc (2, charAt w2 2) (by simp)⟩
      obtain ⟨w3, w4, w5, hres', h3, h4, h5⟩ := try_w3_sound hσ _ _ _ hc3 heq
      injection hres with hres
      exact ⟨w2, w3, w4, w5, by rw [← hres, hres'], ⟨h2w, h2u, h2a⟩, h3, h4, h5⟩
    · exact ih used res (fun w hw => hall w (List.mem_cons_of_mem _ hw)) hres

/-- Soundness of the `w1` loop. -/
theorem try_w1_sound {σ : List Word → List Word} {words : List Word}
    {w0 : Word} (hσ : SubOracleL σ) :
    ∀ (c1 used : List Word) (res : WaffleRes),
      (∀ w ∈ c1, w ∈ words ∧ w ∉ used ∧ w[0]? = some (charAt w0 0)) →
      try_w1 σ words (build_pos_index words) w0 used c1 = some res →
      ∃ w1 w2 w3 w4 w5 : Word,
        res = (mkGrid w0 w1 w2 w3 w4 w5, (w0, w2, w4), (w1, w3, w5)) ∧
        (w1 ∈ words ∧ w1 ∉ used ∧ w1[0]? = some (charAt w0 0)) ∧
        (w2 ∈ words ∧ w2 ∉ w1 :: used ∧ w2[0]? = some (charAt w1 2)) ∧
        (w3 ∈ words ∧ w3 ∉ w2 :: w1 :: used ∧ w3[0]? = some (charAt w0 2) ∧
          w3[2]? = some (charAt w2 2)) ∧
        (w4 ∈ words ∧ w4 ∉ w3 :: w2 :: w1 :: used ∧ w4[0]? = some (charAt w1 4) ∧
          w4[2]? = some (charAt w3 4)) ∧
        (w5 ∈ words ∧ w5 ∉ w4 :: w3 :: w2 :: w1 :: used ∧
          w5[0]? = some (charAt w0 4) ∧ w5[2]? = some (charAt w2 4) ∧
          w5[4]? = some (charAt w4 4)) := by
  intro c1
  induction c1 with
  | nil => intro used res _ hres; simp [try_w1] at hres
  | cons w1 rest ih =>
    intro used res hall hres
    simp only [try_w1] at hres
    split at hres
    · next res' heq =>
      obtain ⟨h1w, h1u, h1a⟩ := hall w1 (List.mem_cons_self _ _)
      have hc2 : ∀ w ∈ candidates_with_constraints σ words (build_pos_index words)
          [(0, charAt w1 2)] (w1 :: used),
          w ∈ words ∧ w ∉ w1 :: used ∧ w[0]? = some (charAt w1 2) := by
        intro w hw
        obtain ⟨hu, hc⟩ := candidates_mem hσ hw
        exact ⟨candidates_mem_words hσ hw, hu, hc (0, charAt w1 2) (by simp)⟩
      obtain ⟨w2, w3, w4, w5, hres', h2, h3, h4, h5⟩ := try_w2_sound hσ _ _ _ hc2 heq
      injection hres with hres
      exact ⟨w1, w2, w3, w4, w5, by rw [← hres, hres'], ⟨h1w, h1u, h1a⟩, h2, h3, h4, h5⟩
    · exact ih used res (fun w hw => hall w (List.mem_cons_of_mem _ hw)) hres

/-- The packaged success analysis of `build_waffle` against the index built
from its own word list: the result tuple's shape, the origin of `w0`, the
six words' membership and exclusion facts, and all nine constraints. -/
theorem build_waffle_ok {σ : List Word → List Word}
    {choice : List Word → Option Word} {words : List Word} {g : Grid}
    {a0 a2 a4 d1 d3 d5 : Word} (hσ : SubOracleL σ)
    (hres : build_waffle σ choice words (build_pos_index words) =
      Except.ok (some (g, (a0, a2, a4), (d1, d3, d5)))) :
    g = mkGrid a0 d1 a2 d3 a4 d5 ∧ choice words = some a0 ∧
    (d1 ∈ words ∧ d1 ∉ [a0] ∧ d1[0]? = some (charAt a0 0)) ∧
    (a2 ∈ words ∧ a2 ∉ [d1, a0] ∧ a2[0]? = some (charAt d1 2)) ∧
    (d3 ∈ words ∧ d3 ∉ [a2, d1, a0] ∧ d3[0]? = some (charAt a0 2) ∧
      d3[2]? = some (charAt a2 2)) ∧
    (a4 ∈ words ∧ a4 ∉ [d3, a2, d1, a0] ∧ a4[0]? = some (charAt d1 4) ∧
      a4[2]? = some (charAt d3 4)) ∧
    (d5 ∈ words ∧ d5 ∉ [a4, d3, a2, d1, a0] ∧ d5[0]? = some (charAt a0 4) ∧
      d5[2]? = some (charAt a2 4) ∧ d5[4]? = some (charAt a4 4)) := by
  unfold build_waffle at hres
  cases hch : choice words with
  | none => rw [hch] at hres; exact absurd hres (by simp)
  | some w0 =>
    rw [hch] at hres
    injection hres with hres
    have hc1 : ∀ w ∈ candidates_with_constraints σ words (build_pos_index words)
        [(0, charAt w0 0)] [w0],
        w ∈ words ∧ w ∉ [w0] ∧ w[0]? = some (charAt w0 0) := by
      intro w hw
      obtain ⟨hu, hc⟩ := candidates_mem hσ hw
      exact ⟨candidates_mem_words hσ hw, hu, hc (0, charAt w0 0) (by simp)⟩
    obtain ⟨w1, w2, w3, w4, w5, hres', h1, h2, h3, h4, h5⟩ :=
      try_w1_sound hσ _ _ _ hc1 hres
    simp only [Prod.mk.injEq] at hres'
    obtain ⟨hg, ⟨ha0, ha2, ha4⟩, hd1, hd3, hd5⟩ := hres'
    subst ha0; subst ha2; subst ha4; subst hd1; subst hd3; subst hd5
    exact ⟨hg, rfl, h1, h2, h3, h4, h5⟩

/-- C1: for every successful call of `build_waffle` (one returning a
`(grid, across, down)` result rather than `None`), the six chosen words
`w0..w5` (`across = (w0,w2,w4)`, `down = (w1,w3,w5)`) satisfy all nine
intersection constraints `w1[0]=w0[0]; w2[0]=w1[2]; w3[0]=w0[2];
w3[2]=w2[2]; w4[0]=w1[4]; w4[2]=w3[4]; w5[0]=w0[4]; w5[2]=w2[4];
w5[4]=w4[4]`, and the six words are pairwise distinct. -/
theorem build_waffle_success_constraints_distinct
    {σ : List Word → List Word} {choice : List Word → Option Word}
    {words : List Word} {g : Grid} {a0 a2 a4 d1 d3 d5 : Word}
    (hσ : SubOracleL σ)
    (hres : build_waffle σ choice words (build_pos_index words) =
      Except.ok (some (g, (a0, a2, a4), (d1, d3, d5)))) :
    (charAt d1 0 = charAt a0 0 ∧ charAt a2 0 = charAt d1 2 ∧
     charAt d3 0 = charAt a0 2 ∧ charAt d3 2 = charAt a2 2 ∧
     charAt a4 0 = charAt d1 4 ∧ charAt a4 2 = charAt d3 4 ∧
     charAt d5 0 = charAt a0 4 ∧ charAt d5 2 = charAt a2 4 ∧
     charAt d5 4 = charAt a4 4) ∧
    [a0, d1, a2, d3, a4, d5].Nodup := by
  obtain ⟨-, -, h1, h2, h3, h4, h5⟩ := build_waffle_ok hσ hres
  constructor
  · exact ⟨charAt_of_getElem? h1.2.2, charAt_of_getElem? h2.2.2,
      charAt_of_getElem? h3.2.2.1, charAt_of_getElem? h3.2.2.2,
      charAt_of_getElem? h4.2.2.1, charAt_of_getElem? h4.2.2.2,
      charAt_of_getElem? h5.2.2.1, charAt_of_getElem? h5.2.2.2.1,
      charAt_of_getElem? h5.2.2.2.2⟩
  · have n1 := h1.2.1
    have n2 := h2.2.1
    have n3 := h3.2.1
    have n4 := h4.2.1
    have n5 := h5.2.1
    simp only [List.mem_cons, List.mem_singleton, List.not_mem_nil, or_false,
      not_or] at n1 n2 n3 n4 n5
    obtain ⟨n21, n20⟩ := n2
    obtain ⟨n32, n31, n30⟩ := n3
    obtain ⟨n43, n42, n41, n40⟩ := n4
    obtain ⟨n54, n53, n52, n51, n50⟩ := n5
    have m01 : a0 ≠ d1 := fun e => n1 e.symm
    have m02 : a0 ≠ a2 := fun e => n20 e.symm
    have m03 : a0 ≠ d3 := fun e => n30 e.symm
    have m04 : a0 ≠ a4 := fun e => n40 e.symm
    have m05 : a0 ≠ d5 := fun e => n50 e.symm
    have m12 : d1 ≠ a2 := fun e => n21 e.symm
    have m13 : d1 ≠ d3 := fun e => n31 e.symm
    have m14 : d1 ≠ a4 := fun e => n41 e.symm
    have m15 : d1 ≠ d5 := fun e => n51 e.symm
    have m23 : a2 ≠ d3 := fun e => n32 e.symm
    have m24 : a2 ≠ a4 := fun e => n42 e.symm
    have m25 : a2 ≠ d5 := fun e => n52 e.symm
    have m34 : d3 ≠ a4 := fun e => n43 e.symm
    have m35 : d3 ≠ d5 := fun e => n53 e.symm
    have m45 : a4 ≠ d5 := fun e => n54 e.symm
    simp only [List.nodup_cons, List.mem_cons, List.not_mem_nil, or_false,
      not_or, List.nodup_nil, and_true]
    tauto

/-- Witness for C1 at the six-word demo list with identity shuffle and
head choice: the build succeeds and the conclusion holds concretely. -/
theorem build_waffle_success_constraints_distinct_witness :
    (charAt dw1 0 = charAt dw0 0 ∧ charAt dw2 0 = charAt dw1 2 ∧
     charAt dw3 0 = charAt dw0 2 ∧ charAt dw3 2 = charAt dw2 2 ∧
     charAt dw4 0 = charAt dw1 4 ∧ charAt dw4 2 = charAt dw3 4 ∧
     charAt dw5 0 = charAt dw0 4 ∧ charAt dw5 2 = charAt dw2 4 ∧
     charAt dw5 4 = charAt dw4 4) ∧
    [dw0, dw1, dw2, dw3, dw4, dw5].Nodup :=
  @build_waffle_success_constraints_distinct id headChoice demoWords
    (mkGrid dw0 dw1 dw2 dw3 dw4 dw5)
    dw0 dw2 dw4 dw1 dw3 dw5 (fun _ _ h => h) rfl

/-- What the two assignment loops of `build_waffle` leave in the grid, cell
by cell: columns 0/2/4 hold the column words (overwriting the row words at
the intersections), rows 0/2/4 hold the row words elsewhere, and the four
cells `(1,1), (1,3), (3,1), (3,3)` are never written and stay `none`. -/
theorem mkGrid_eq (w0 w1 w2 w3 w4 w5 : Word) :
    mkGrid w0 w1 w2 w3 w4 w5 =
      [[some (charAt w1 0), some (charAt w0 1), some (charAt w3 0),
        some (charAt w0 3), some (charAt w5 0)],
       [some (charAt w1 1), none, some (charAt w3 1), none, some (charAt w5 1)],
       [some (charAt w1 2), some (charAt w2 1), some (charAt w3 2),
        some (charAt w2 3), some (charAt w5 2)],
       [some (charAt w1 3), none, some (charAt w3 3), none, some (charAt w5 3)],
       [some (charAt w1 4), some (charAt w4 1), some (charAt w3 4),
        some (charAt w4 3), some (charAt w5 4)]] := by
  rfl


/-- C2: for every word list, the index built from it, a non-empty constraint
map and an exclusion set, `candidates_with_constraints` returns exactly (up
to the shuffle's reordering) the words of the list that satisfy every
constraint and are not excluded — the filter is checked against every
constraint, not only the one whose posting list was picked as the base, and
nothing satisfying all constraints is dropped. -/
theorem candidates_with_constraints_exact
    {σ : List Word → List Word} (words : List Word)
    (cons : List (Nat × Char)) (used : List Word)
    (hσ : PermOracleL σ) (hne : cons ≠ []) :
    (candidates_with_constraints σ words (build_pos_index words) cons used).Perm
      (words.filter (fun w => !(used.contains w) && cons_check cons w)) := by
  unfold candidates_with_constraints
  rw [if_neg (fun h => hne (List.isEmpty_iff.mp h))]
  dsimp only
  cases hsorted : List.insertionSort (fun a b => a.length ≤ b.length)
      (cons.map (fun pc => build_pos_index words pc)) with
  | nil =>
    exfalso
    have hperm := List.perm_insertionSort
      (fun (a b : List Word) => a.length ≤ b.length)
      (cons.map (fun pc => build_pos_index words pc))
    rw [hsorted] at hperm
    have : cons.map (fun pc => build_pos_index words pc) = [] :=
      (hperm.symm).eq_nil
    exact hne (List.map_eq_nil_iff.mp this)
  | cons base rest =>
    refine (hσ _).trans ?_
    have hbase : base ∈ cons.map (fun pc => build_pos_index words pc) := by
      have hmem : base ∈ List.insertionSort (fun a b => a.length ≤ b.length)
          (cons.map (fun pc => build_pos_index words pc)) := by
        rw [hsorted]; exact List.mem_cons_self _ _
      exact (List.perm_insertionSort _ _).mem_iff.mp hmem
    obtain ⟨pc, hpc, hbase'⟩ := List.mem_map.mp hbase
    obtain ⟨p, c⟩ := pc
    rw [← hbase', build_pos_index_apply, List.filter_filter]
    have hfeq : words.filter
        (fun w => (!(used.contains w) && cons_check cons w) && (w[p]? == some c)) =
        words.filter (fun w => !(used.contains w) && cons_check cons w) := by
      apply List.filter_congr
      intro w _
      by_cases h2 : cons_check cons w = true
      · have h3 : (w[p]? == some c) = true := by
          have := List.all_eq_true.mp h2 (p, c) hpc
          simpa using this
        simp [h2, h3]
      · rw [Bool.not_eq_true] at h2
        simp [h2]
    rw [hfeq]

/-- `headChoice` is a valid `random.choice` oracle. -/
theorem headChoice_oracle : ChoiceOracle headChoice := by
  constructor
  · intro l w h
    cases l with
    | nil => simp [headChoice] at h
    | cons a t =>
      simp only [headChoice, List.head?_cons, Option.some.injEq] at h
      rw [← h]
      exact List.mem_cons_self _ _
  · intro l h
    cases l with
    | nil => rfl
    | cons a t => simp [headChoice] at h

/-- Letters of in-list words are alphabetic at every in-range position. -/
theorem charAt_isAlpha {words : List Word}
    (halpha : ∀ w ∈ words, w.length = 5 ∧ w.all Char.isAlpha)
    {w : Word} (hw : w ∈ words) {j : Nat} (hj : j < 5) :
    (charAt w j).isAlpha = true := by
  obtain ⟨hlen, halph⟩ := halpha w hw
  have hj' : j < w.length := by omega
  have hc : charAt w j = w[j] := by
    simp [charAt, List.getD_eq_getElem?_getD, List.getElem?_eq_getElem hj']
  rw [hc]
  exact List.all_eq_true.mp halph _ (List.getElem_mem hj')

/-- `grid_to_masked` on an assembled grid, cell by cell. -/
theorem grid_to_masked_mkGrid (w0 w1 w2 w3 w4 w5 : Word) :
    grid_to_masked (mkGrid w0 w1 w2 w3 w4 w5) =
      [[some (charAt w1 0), some (charAt w0 1), some (charAt w3 0),
        some (charAt w0 3), some (charAt w5 0)],
       [some (charAt w1 1), some '#', some (charAt w3 1), some '#',
        some (charAt w5 1)],
       [some (charAt w1 2), some (charAt w2 1), some (charAt w3 2),
        some (charAt w2 3), some (charAt w5 2)],
       [some (charAt w1 3), some '#', some (charAt w3 3), some '#',
        some (charAt w5 3)],
       [some (charAt w1 4), some (charAt w4 1), some (charAt w3 4),
        some (charAt w4 3), some (charAt w5 4)]] := by
  rw [mkGrid_eq]
  rfl

/-- The shape C5 requires of a masked grid: the marker `'#'` at exactly the
hole cells, an alphabetic letter at each of the 21 others. -/
def maskedWellFormed (m : Grid) : Prop :=
  ∀ r, r < 5 → ∀ c, c < 5 →
    (maskAt r c = false → cellAt m r c = some '#') ∧
    (maskAt r c = true → ∃ ch, cellAt m r c = some ch ∧ ch.isAlpha = true)

set_option maxHeartbeats 1000000 in
/-- C5: for every grid produced by a successful build (over a word list of
5-letter alphabetic words), the masked grid has the hole marker `'#'` at
exactly the four cells `(1,1), (1,3), (3,1), (3,3)` and a letter at each of
the other 21 cells; no letter is written at a hole position. -/
theorem grid_to_masked_wellFormed {σ : List Word → List Word}
    {choice : List Word → Option Word} {words : List Word} {g : Grid}
    {a0 a2 a4 d1 d3 d5 : Word} (hσ : SubOracleL σ) (hch : ChoiceOracle choice)
    (halpha : ∀ w ∈ words, w.length = 5 ∧ w.all Char.isAlpha)
    (hres : build_waffle σ choice words (build_pos_index words) =
      Except.ok (some (g, (a0, a2, a4), (d1, d3, d5)))) :
    maskedWellFormed (grid_to_masked g) := by
  obtain ⟨hg, hw0, h1, h2, h3, h4, h5⟩ := build_waffle_ok hσ hres
  have ha0w : a0 ∈ words := hch.1 _ _ hw0
  have hA0 : ∀ j, j < 5 → (charAt a0 j).isAlpha = true :=
    fun j hj => charAt_isAlpha halpha ha0w hj
  have hD1 : ∀ j, j < 5 → (charAt d1 j).isAlpha = true :=
    fun j hj => charAt_isAlpha halpha h1.1 hj
  have hA2 : ∀ j, j < 5 → (charAt a2 j).isAlpha = true :=
    fun j hj => charAt_isAlpha halpha h2.1 hj
  have hD3 : ∀ j, j < 5 → (charAt d3 j).isAlpha = true :=
    fun j hj => charAt_isAlpha halpha h3.1 hj
  have hA4 : ∀ j, j < 5 → (charAt a4 j).isAlpha = true :=
    fun j hj => charAt_isAlpha halpha h4.1 hj
  have hD5 : ∀ j, j < 5 → (charAt d5 j).isAlpha = true :=
    fun j hj => charAt_isAlpha halpha h5.1 hj
  subst hg
  rw [grid_to_masked_mkGrid]
  clear hres hw0 ha0w h1 h2 h3 h4 h5 hσ hch halpha
  intro r hr c hc
  have hr5 : r = 0 ∨ r = 1 ∨ r = 2 ∨ r = 3 ∨ r = 4 := by omega
  have hc5 : c = 0 ∨ c = 1 ∨ c = 2 ∨ c = 3 ∨ c = 4 := by omega
  rcases hr5 with rfl | rfl | rfl | rfl | rfl <;>
    rcases hc5 with rfl | rfl | rfl | rfl | rfl
  · exact ⟨fun hm => absurd hm (by decide), fun _ => ⟨_, rfl, hD1 0 (by omega)⟩⟩
  · exact ⟨fun hm => absurd hm (by decide), fun _ => ⟨_, rfl, hA0 1 (by omega)⟩⟩
  · exact ⟨fun hm => absurd hm (by decide), fun _ => ⟨_, rfl, hD3 0 (by omega)⟩⟩
  · exact ⟨fun hm => absurd hm (by decide), fun _ => ⟨_, rfl, hA0 3 (by omega)⟩⟩
  · exact ⟨fun hm => absurd hm (by decide), fun _ => ⟨_, rfl, hD5 0 (by omega)⟩⟩
  · exact ⟨fun hm => absurd hm (by decide), fun _ => ⟨_, rfl, hD1 1 (by omega)⟩⟩
  · exact ⟨fun _ => rfl, fun hm => absurd hm (by decide)⟩
  · exact ⟨fun hm => absurd hm (by decide), fun _ => ⟨_, rfl, hD3 1 (by omega)⟩⟩
  · exact ⟨fun _ => rfl, fun hm => absurd hm (by decide)⟩
  · exact ⟨fun hm => absurd hm (by decide), fun _ => ⟨_, rfl, hD5 1 (by omega)⟩⟩
  · exact ⟨fun hm => absurd hm (by decide), fun _ => ⟨_, rfl, hD1 2 (by omega)⟩⟩
  · exact ⟨fun hm => absurd hm (by decide), fun _ => ⟨_, rfl, hA2 1 (by omega)⟩⟩
  · exact ⟨fun hm => absurd hm (by decide), fun _ => ⟨_, rfl, hD3 2 (by omega)⟩⟩
  · exact ⟨fun hm => absurd hm (by decide), fun _ => ⟨_, rfl, hA2 3 (by omega)⟩⟩
  · exact ⟨fun hm => absurd hm (by decide), fun _ => ⟨_, rfl, hD5 2 (by omega)⟩⟩
  · exact ⟨fun hm => absurd hm (by decide), fun _ => ⟨_, rfl, hD1 3 (by omega)⟩⟩
  · exact ⟨fun _ => rfl, fun hm => absurd hm (by decide)⟩
  · exact ⟨fun hm => absurd hm (by decide), fun _ => ⟨_, rfl, hD3 3 (by omega)⟩⟩
  · exact ⟨fun _ => rfl, fun hm => absurd hm (by decide)⟩
  · exact ⟨fun hm => absurd hm (by decide), fun _ => ⟨_, rfl, hD5 3 (by omega)⟩⟩
  · exact ⟨fun hm => absurd hm (by decide), fun _ => ⟨_, rfl, hD1 4 (by omega)⟩⟩
  · exact ⟨fun hm => absurd hm (by decide), fun _ => ⟨_, rfl, hA4 1 (by omega)⟩⟩
  · exact ⟨fun hm => absurd hm (by decide), fun _ => ⟨_, rfl, hD3 4 (by omega)⟩⟩
  · exact ⟨fun hm => absurd hm (by decide), fun _ => ⟨_, rfl, hA4 3 (by omega)⟩⟩
  · exact ⟨fun hm => absurd hm (by decide), fun _ => ⟨_, rfl, hD5 4 (by omega)⟩⟩

/-- Witness for C5 at the demo build. -/
theorem grid_to_masked_wellFormed_witness :
    maskedWellFormed (grid_to_masked (mkGrid dw0 dw1 dw2 dw3 dw4 dw5)) :=
  @grid_to_masked_wellFormed id headChoice demoWords
    (mkGrid dw0 dw1 dw2 dw3 dw4 dw5) dw0 dw2 dw4 dw1 dw3 dw5
    (fun _ _ h => h) headChoice_oracle (by decide) rfl

/-- The raw-grid shape that actually holds (amended C10): letters at exactly
the 21 mask cells, `none` at the four hole cells. -/
def rawGridShape (g : Grid) : Prop :=
  ∀ r, r < 5 → ∀ c, c < 5 →
    (maskAt r c = true → (cellAt g r c).isSome = true) ∧
    (maskAt r c = false → cellAt g r c = none)

/-- C10 counterexample: a successful concrete build whose raw grid holds no
letter at hole `(1,1)` — the two assignment loops never write columns 1 and
3 of rows 1 and 3, so the claim that all 25 cells (including the holes) hold
letters is false. -/
theorem build_grid_hole_cell_is_none_counterexample :
    build_waffle id headChoice demoWords (build_pos_index demoWords) =
      Except.ok (some (mkGrid dw0 dw1 dw2 dw3 dw4 dw5, (dw0, dw2, dw4),
        (dw1, dw3, dw5))) ∧
    cellAt (mkGrid dw0 dw1 dw2 dw3 dw4 dw5) 1 1 = none :=
  ⟨rfl, rfl⟩

/-- C10 (amended): the raw 5x5 grid of a successful build has a letter at
exactly the 21 non-hole cells and `none` (not a letter) at the four hole
positions `(1,1), (1,3), (3,1), (3,3)`; the holes are replaced by `'#'` only
when `grid_to_masked` is applied. -/
theorem build_grid_raw_shape {σ : List Word → List Word}
    {choice : List Word → Option Word} {words : List Word} {g : Grid}
    {a0 a2 a4 d1 d3 d5 : Word} (hσ : SubOracleL σ)
    (hres : build_waffle σ choice words (build_pos_index words) =
      Except.ok (some (g, (a0, a2, a4), (d1, d3, d5)))) :
    rawGridShape g := by
  obtain ⟨hg, -, -, -, -, -, -⟩ := build_waffle_ok hσ hres
  subst hg
  rw [mkGrid_eq]
  clear hres hσ
  intro r hr c hc
  have hr5 : r = 0 ∨ r = 1 ∨ r = 2 ∨ r = 3 ∨ r = 4 := by omega
  have hc5 : c = 0 ∨ c = 1 ∨ c = 2 ∨ c = 3 ∨ c = 4 := by omega
  rcases hr5 with rfl | rfl | rfl | rfl | rfl <;>
    rcases hc5 with rfl | rfl | rfl | rfl | rfl
  · exact ⟨fun _ => rfl, fun hm => absurd hm (by decide)⟩
  · exact ⟨fun _ => rfl, fun hm => absurd hm (by decide)⟩
  · exact ⟨fun _ => rfl, fun hm => absurd hm (by decide)⟩
  · exact ⟨fun _ => rfl, fun hm => absurd hm (by decide)⟩
  · exact ⟨fun _ => rfl, fun hm => absurd hm (by decide)⟩
  · exact ⟨fun _ => rfl, fun hm => absurd hm (by decide)⟩
  · exact ⟨fun hm => absurd hm (by decide), fun _ => rfl⟩
  · exact ⟨fun _ => rfl, fun hm => absurd hm (by decide)⟩
  · exact ⟨fun hm => absurd hm (by decide), fun _ => rfl⟩
  · exact ⟨fun _ => rfl, fun hm => absurd hm (by decide)⟩
  · exact ⟨fun _ => rfl, fun hm => absurd hm (by decide)⟩
  · exact ⟨fun _ => rfl, fun hm => absurd hm (by decide)⟩
  · exact ⟨fun _ => rfl, fun hm => absurd hm (by decide)⟩
  · exact ⟨fun _ => rfl, fun hm => absurd hm (by decide)⟩
  · exact ⟨fun _ => rfl, fun hm => absurd hm (by decide)⟩
  · exact ⟨fun _ => rfl, fun hm => absurd hm (by decide)⟩
  · exact ⟨fun hm => absurd hm (by decide), fun _ => rfl⟩
  · exact ⟨fun _ => rfl, fun hm => absurd hm (by decide)⟩
  · exact ⟨fun hm => absurd hm (by decide), fun _ => rfl⟩
  · exact ⟨fun _ => rfl, fun hm => absurd hm (by decide)⟩
  · exact ⟨fun _ => rfl, fun hm => absurd hm (by decide)⟩
  · exact ⟨fun _ => rfl, fun hm => absurd hm (by decide)⟩
  · exact ⟨fun _ => rfl, fun hm => absurd hm (by decide)⟩
  · exact ⟨fun _ => rfl, fun hm => absurd hm (by decide)⟩
  · exact ⟨fun _ => rfl, fun hm => absurd hm (by decide)⟩

/-- Witness for the amended C10 at the demo build. -/
theorem build_grid_raw_shape_witness :
    rawGridShape (mkGrid dw0 dw1 dw2 dw3 dw4 dw5) :=
  @build_grid_raw_shape id headChoice demoWords
    (mkGrid dw0 dw1 dw2 dw3 dw4 dw5) dw0 dw2 dw4 dw1 dw3 dw5
    (fun _ _ h => h) rfl

/-- Witness for C2: exact filtering at the demo list, constraint `(0,'a')`,
excluding `dw0`. -/
theorem candidates_with_constraints_exact_witness :
    (candidates_with_constraints id demoWords (build_pos_index demoWords)
      [(0, 'a')] [dw0]).Perm
      (demoWords.filter (fun w => !([dw0].contains w) && cons_check [(0, 'a')] w)) :=
  candidates_with_constraints_exact demoWords [(0, 'a')] [dw0]
    (fun l => List.Perm.refl l) (by simp)

/-- C7 (amended): the index built from the empty word list answers every
query with the empty list, but `build_waffle` on the empty word list raises
(`random.choice` of an empty sequence — the `IndexError` modelled by
`Except.error ()`): it does not return the `None` result. -/
theorem empty_words_index_empty_build_raises
    (σ : List Word → List Word) (choice : List Word → Option Word)
    (idx : PosIndex) (p : Nat) (c : Char) (hch : ChoiceOracle choice) :
    build_pos_index [] (p, c) = [] ∧
    build_waffle σ choice [] idx = Except.error () := by
  refine ⟨rfl, ?_⟩
  unfold build_waffle
  cases hc : choice [] with
  | none => rfl
  | some w => exact absurd (hch.1 _ _ hc) (List.not_mem_nil w)

/-- Witness for the amended C7 at concrete oracles. -/
theorem empty_words_index_empty_build_raises_witness :
    build_pos_index [] (0, 'a') = [] ∧
    build_waffle id headChoice [] (build_pos_index []) = Except.error () :=
  empty_words_index_empty_build_raises id headChoice (build_pos_index []) 0 'a'
    headChoice_oracle

/-- C7 counterexample: on the empty word list, `build_waffle` propagates the
`IndexError` of `random.choice([])` rather than returning the failure value
`None` (`Except.ok none`). -/
theorem build_waffle_empty_words_raises_counterexample :
    build_waffle id headChoice [] (build_pos_index []) = Except.error () ∧
    build_waffle id headChoice [] (build_pos_index []) ≠ Except.ok none :=
  ⟨rfl, fun h => nomatch h⟩

/-- `UInt32` order reflects to `Nat`. -/
theorem uint32_le_iff (a b : UInt32) : a ≤ b ↔ a.toNat ≤ b.toNat := by
  rw [UInt32.le_def, BitVec.le_def]
  exact Iff.rfl

/-- `Char.isUpper` in terms of the code point. -/
theorem chIsUpper_iff (ch : Char) :
    ch.isUpper = true ↔ 65 ≤ ch.toNat ∧ ch.toNat ≤ 90 := by
  unfold Char.isUpper
  rw [Bool.and_eq_true, decide_eq_true_iff, decide_eq_true_iff, ge_iff_le,
    uint32_le_iff, uint32_le_iff]
  exact Iff.rfl

/-- `Char.toLower` on an upper-case letter adds 32 to the code point. -/
theorem chToLower_toNat_of_upper (c : Char) (h : 65 ≤ c.toNat ∧ c.toNat ≤ 90) :
    (Char.toLower c).toNat = c.toNat + 32 := by
  unfold Char.toLower
  dsimp only
  rw [if_pos ⟨h.1, h.2⟩]
  have hv : (c.toNat + 32).isValidChar := Or.inl (by omega)
  unfold Char.ofNat
  rw [dif_pos hv]
  unfold Char.ofNatAux
  simp [Char.toNat, UInt32.toNat, BitVec.toNat_ofNatLt]

/-- `Char.toLower` never produces an upper-case letter. -/
theorem chIsUpper_toLower (c : Char) : (Char.toLower c).isUpper = false := by
  by_cases h : 65 ≤ c.toNat ∧ c.toNat ≤ 90
  · rw [← Bool.not_eq_true, chIsUpper_iff, chToLower_toNat_of_upper c h]
    omega
  · have heq : Char.toLower c = c := by
      unfold Char.toLower
      dsimp only
      rw [if_neg h]
    rw [heq, ← Bool.not_eq_true, chIsUpper_iff]
    omega

/-- An alphabetic `toLower` image is lower-case. -/
theorem chIsLower_of_alpha_toLower (c : Char)
    (h : (Char.toLower c).isAlpha = true) : (Char.toLower c).isLower = true := by
  unfold Char.isAlpha at h
  rw [Bool.or_eq_true] at h
  rcases h with h | h
  · rw [chIsUpper_toLower] at h
    exact absurd h (by simp)
  · exact h

/-- Totality of the lexicographic word order. -/
theorem wordLe_total : ∀ a b : List Char, wordLe a b = true ∨ wordLe b a = true := by
  intro a
  induction a with
  | nil => intro b; left; rfl
  | cons x xs ih =>
    intro b
    cases b with
    | nil => right; rfl
    | cons y ys =>
      by_cases hxy : x = y
      · subst hxy
        rcases ih ys with h | h
        · left; simpa [wordLe] using h
        · right; simpa [wordLe] using h
      · rcases lt_or_gt_of_ne hxy with h | h
        · left; simp [wordLe, hxy, h]
        · right; simp [wordLe, Ne.symm hxy, h]

/-- Transitivity of the lexicographic word order. -/
theorem wordLe_trans : ∀ a b c : List Char,
    wordLe a b = true → wordLe b c = true → wordLe a c = true := by
  intro a
  induction a with
  | nil => intro b c _ _; rfl
  | cons x xs ih =>
    intro b c hab hbc
    cases b with
    | nil => simp [wordLe] at hab
    | cons y ys =>
      cases c with
      | nil => simp [wordLe] at hbc
      | cons z zs =>
        by_cases hxy : x = y <;> by_cases hyz : y = z
        · subst hxy; subst hyz
          simp only [wordLe, if_pos rfl] at hab hbc ⊢
          exact ih ys zs hab hbc
        · subst hxy
          simp only [wordLe, if_neg hyz] at hbc ⊢
          exact hbc
        · subst hyz
          simp only [wordLe, if_neg hxy] at hab ⊢
          exact hab
        · simp only [wordLe, if_neg hxy] at hab
          simp only [wordLe, if_neg hyz] at hbc
          rw [decide_eq_true_iff] at hab hbc
          have hxz : x < z := lt_trans hab hbc
          simp only [wordLe, if_neg (ne_of_lt hxz)]
          exact decide_eq_true hxz

instance : IsTotal Word wordRel := ⟨wordLe_total⟩

instance : IsTrans Word wordRel := ⟨fun a b c => wordLe_trans a b c⟩

/-- C8 counterexample: a raw input with the same 5-letter word on two lines;
`load_words` keeps both copies (Python's `list.sort` does not deduplicate),
so the output is not duplicate-free. -/
theorem load_words_duplicates_counterexample :
    load_words [['a','a','a','a','a'], ['a','a','a','a','a']] =
      [['a','a','a','a','a'], ['a','a','a','a','a']] ∧
    ¬ (load_words [['a','a','a','a','a'], ['a','a','a','a','a']]).Nodup :=
  ⟨rfl, by decide⟩

/-- C8 (amended): every entry of `load_words` is a 5-character string of
lower-case alphabetic characters and the output is sorted (lexicographic
`wordRel`), being a permutation of the stripped/lowered/filtered input lines
with multiplicities preserved — duplicates are NOT removed. -/
theorem load_words_spec (input : List (List Char)) :
    (∀ w ∈ load_words input, w.length = 5 ∧
      ∀ ch ∈ w, ch.isAlpha = true ∧ ch.isLower = true) ∧
    List.Sorted wordRel (load_words input) ∧
    (load_words input).Perm
      (((input.filter (fun w => !(pyStrip w).isEmpty)).map
        (fun w => (pyStrip w).map Char.toLower)).filter
        (fun w => w.length == 5 && w.all Char.isAlpha)) := by
  unfold load_words
  refine ⟨?_, List.sorted_insertionSort wordRel _, List.perm_insertionSort wordRel _⟩
  intro w hw
  have hw' := (List.perm_insertionSort wordRel _).mem_iff.mp hw
  rw [List.mem_filter, Bool.and_eq_true] at hw'
  obtain ⟨hmap, hlen, halpha⟩ := hw'
  refine ⟨by simpa using hlen, ?_⟩
  intro ch hch
  have hal : ch.isAlpha = true := List.all_eq_true.mp halpha ch hch
  obtain ⟨x, -, hw2⟩ := List.mem_map.mp hmap
  rw [← hw2] at hch
  obtain ⟨c', -, rfl⟩ := List.mem_map.mp hch
  exact ⟨hal, chIsLower_of_alpha_toLower c' hal⟩

/-- The invariant of the `generate_many` retry loop: starting from a
consistent state it terminates without an exception (given none of the
attempts raises), within the try budget, never exceeding the requested
count, writing one record per success, and exhausting the budget whenever it
falls short. -/
theorem gen_loop_spec (attempt : Nat → Except Unit (Option WaffleRes))
    (n max_tries : Nat) (hok : ∀ t, attempt t ≠ Except.error ()) :
    ∀ (k tries successes : Nat)
      (out : List (Grid × List Word × List Word × List Char)),
      max_tries - tries = k → tries ≤ max_tries → successes ≤ n →
      out.length = successes →
      ∃ tries' successes' out',
        gen_loop attempt n max_tries tries successes out =
          Except.ok (tries', successes', out') ∧
        tries' ≤ max_tries ∧ successes' ≤ n ∧ out'.length = successes' ∧
        (successes' < n → tries' = max_tries) := by
  intro k
  induction k with
  | zero =>
    intro tries successes out hk htm hsn hlen
    refine ⟨tries, successes, out, ?_, htm, hsn, hlen, fun _ => by omega⟩
    rw [gen_loop, dif_neg (by omega)]
  | succ k ih =>
    intro tries successes out hk htm hsn hlen
    rw [gen_loop]
    by_cases hcond : successes < n ∧ tries < max_tries
    · rw [dif_pos hcond]
      cases hatt : attempt (tries + 1) with
      | error e => cases e; exact absurd hatt (hok _)
      | ok oval =>
        cases oval with
        | none =>
          exact ih (tries + 1) successes out (by omega) (by omega) hsn hlen
        | some res =>
          obtain ⟨grid, across, down⟩ := res
          exact ih (tries + 1) (successes + 1)
            (out ++ [waffle_to_example grid across down]) (by omega) (by omega)
            (by omega) (by simp [hlen])
    · rw [dif_neg hcond]
      refine ⟨tries, successes, out, rfl, htm, hsn, hlen, ?_⟩
      intro hs
      by_cases htl : tries < max_tries
      · exact absurd ⟨hs, htl⟩ hcond
      · omega

/-- C9: the driver calls `build_waffle` at most `max_tries` times (the try
counter, incremented once per call, never exceeds the bound), stops as soon
as `n` puzzles are produced or the bound is reached, writes one record per
success, and on a shortfall (fewer than `n` produced) it has exhausted the
budget and still terminates normally — no exception — provided the builds
themselves do not raise. -/
theorem generate_many_bounds (σ : Nat → List Word → List Word)
    (choice : Nat → List Word → Option Word) (input : List (List Char))
    (n max_tries : Nat)
    (hok : ∀ t, build_waffle (σ t) (choice t) (load_words input)
      (build_pos_index (load_words input)) ≠ Except.error ()) :
    (∀ e, generate_many σ choice input n max_tries ≠ Except.error e) ∧
    (∀ tries successes out,
      generate_many σ choice input n max_tries =
        Except.ok (tries, successes, out) →
      tries ≤ max_tries ∧ successes ≤ n ∧ out.length = successes ∧
      (successes < n → tries = max_tries)) := by
  obtain ⟨t', s', o', heq, h1, h2, h3, h4⟩ :=
    gen_loop_spec
      (fun t => build_waffle (σ t) (choice t) (load_words input)
        (build_pos_index (load_words input)))
      n max_tries hok max_tries 0 0 [] (by omega) (by omega) (by omega) rfl
  have hgm : generate_many σ choice input n max_tries =
      gen_loop
        (fun t => build_waffle (σ t) (choice t) (load_words input)
          (build_pos_index (load_words input)))
        n max_tries 0 0 [] := rfl
  constructor
  · intro e h
    rw [hgm, heq] at h
    exact Except.noConfusion h
  · intro tries successes out h
    rw [hgm, heq] at h
    injection h with h
    simp only [Prod.mk.injEq] at h
    obtain ⟨rfl, rfl, rfl⟩ := h
    exact ⟨h1, h2, h3, h4⟩

/-- Concrete evaluation of the retry loop on the demo list: the first try
succeeds, so the loop stops after one call with one record written.
(`gen_loop` is defined by well-founded recursion, so the two loop steps are
unfolded by its equation instead of plain reduction.) -/
theorem generate_many_demo_eval :
    generate_many (fun _ => id) (fun _ => headChoice) demoWords 1 3 =
      Except.ok (1, 1, [waffle_to_example (mkGrid dw0 dw1 dw2 dw3 dw4 dw5)
        (dw0, dw2, dw4) (dw1, dw3, dw5)]) := by
  show gen_loop _ 1 3 0 0 [] = _
  rw [gen_loop, dif_pos (by omega : (0 : Nat) < 1 ∧ (0 : Nat) < 3)]
  show gen_loop _ 1 3 1 1
    [waffle_to_example (mkGrid dw0 dw1 dw2 dw3 dw4 dw5) (dw0, dw2, dw4)
      (dw1, dw3, dw5)] = _
  rw [gen_loop, dif_neg (by omega : ¬((1 : Nat) < 1 ∧ (1 : Nat) < 3))]

/-- Witness for C9: one requested puzzle with a budget of three tries on the
demo list — no exception, one try consumed, one record, and the bound facts
hold at the concrete output. -/
theorem generate_many_bounds_witness :
    (generate_many (fun _ => id) (fun _ => headChoice) demoWords 1 3 ≠
      Except.error ()) ∧
    ((1 : Nat) ≤ 3 ∧ (1 : Nat) ≤ 1 ∧
      [waffle_to_example (mkGrid dw0 dw1 dw2 dw3 dw4 dw5) (dw0, dw2, dw4)
        (dw1, dw3, dw5)].length = 1 ∧ ((1 : Nat) < 1 → (1 : Nat) = 3)) :=
  ⟨(generate_many_bounds (fun _ => id) (fun _ => headChoice) demoWords 1 3
      (fun _ h => nomatch h)).1 (),
   (generate_many_bounds (fun _ => id) (fun _ => headChoice) demoWords 1 3
      (fun _ h => nomatch h)).2 1 1 _ generate_many_demo_eval⟩

/-- Non-fixed positions of the flat string, in ascending order (the order in
which the scrambler collects and refills letters). -/
def nonFixedPositions (len : Nat) (fixed : List Nat) : List Nat :=
  (List.range len).filter (fun i => !(fixed.contains i))

/-- Letters of `s` read at the given positions, in order. -/
def lettersAt (s : List Char) (ps : List Nat) : List Char :=
  ps.map (charAt s)

/-- The reassembly has one output letter per index. -/
theorem reassemble_length (f : List Char) (fixed : List Nat) :
    ∀ (is : List Nat) (letters : List Char),
      (reassemble f fixed is letters).length = is.length := by
  intro is
  induction is with
  | nil => intro letters; rfl
  | cons i is ih =>
    intro letters
    unfold reassemble
    by_cases h : fixed.contains i = true
    · rw [if_pos h]
      simp [ih]
    · rw [if_neg h]
      simp [ih]

/-- Any (index, output letter) pair of the reassembly at a fixed index
carries the target's letter. -/
theorem reassemble_fixed (f : List Char) (fixed : List Nat) :
    ∀ (is : List Nat) (letters : List Char) (p : Nat × Char),
      p ∈ is.zip (reassemble f fixed is letters) →
      fixed.contains p.1 = true → p.2 = charAt f p.1 := by
  intro is
  induction is with
  | nil => intro letters p hp; simp [reassemble] at hp
  | cons i is ih =>
    intro letters p hp hfix
    unfold reassemble at hp
    by_cases h : fixed.contains i = true
    · rw [if_pos h, List.zip_cons_cons] at hp
      rcases List.mem_cons.mp hp with rfl | hp'
      · rfl
      · exact ih letters p hp' hfix
    · rw [if_neg h, List.zip_cons_cons] at hp
      rcases List.mem_cons.mp hp with rfl | hp'
      · exact absurd hfix h
      · exact ih letters.tail p hp' hfix

/-- Projection used to state the refill property: keep the letter of a
(index, letter) pair when the index is not fixed. -/
def nonFixedProj (fixed : List Nat) (p : Nat × Char) : Option Char :=
  if fixed.contains p.1 then none else some p.2

/-- The reassembly consumes the shuffled letters in order: projecting the
output at the non-fixed indices, in index order, returns exactly the letter
list (when its length matches the number of non-fixed indices). -/
theorem reassemble_nonfixed (f : List Char) (fixed : List Nat) :
    ∀ (is : List Nat) (letters : List Char),
      letters.length = (is.filter (fun i => !(fixed.contains i))).length →
      (is.zip (reassemble f fixed is letters)).filterMap (nonFixedProj fixed) =
        letters := by
  intro is
  induction is with
  | nil =>
    intro letters hlen
    have h0 : letters = [] := List.eq_nil_of_length_eq_zero (by simpa using hlen)
    simp [h0, reassemble]
  | cons i is ih =>
    intro letters hlen
    unfold reassemble
    by_cases h : fixed.contains i = true
    · rw [List.filter_cons_of_neg (by rw [h]; exact Bool.false_ne_true)] at hlen
      rw [if_pos h, List.zip_cons_cons, List.filterMap_cons]
      have hhead : nonFixedProj fixed (i, charAt f i) = none := if_pos h
      rw [hhead]
      exact ih letters hlen
    · have hc : fixed.contains i = false := Bool.eq_false_iff.mpr h
      rw [List.filter_cons_of_pos (by rw [hc]; rfl), List.length_cons] at hlen
      cases letters with
      | nil =>
        rw [List.length_nil] at hlen
        exact absurd hlen (by omega)
      | cons a as =>
        rw [if_neg h, List.zip_cons_cons, List.filterMap_cons]
        have hhead : nonFixedProj fixed (i, (a :: as).headD ' ') = some a :=
          if_neg h
        rw [hhead, List.tail_cons]
        rw [List.length_cons] at hlen
        rw [ih as (by omega)]

/-- Zipping `range` with a list pairs each position with its `getD` value. -/
theorem zip_range_eq_map (S : List Char) (n : Nat) (hn : S.length = n) :
    (List.range n).zip S =
      (List.range n).map (fun i => (i, S.getD i ' ')) := by
  apply List.ext_getElem
  · simp [hn]
  · intro j h1 h2
    have hj : j < S.length := by
      simp at h2
      omega
    simp [List.getElem_zip, List.getElem_range, List.getD_eq_getElem?_getD,
      List.getElem?_eq_getElem hj]

/-- Mapping over a filtered list as a `filterMap`. -/
theorem filter_map_eq_filterMap {α β : Type} (q : α → Bool) (f : α → β) :
    ∀ l : List α, (l.filter q).map f =
      l.filterMap (fun a => if q a then some (f a) else none) := by
  intro l
  induction l with
  | nil => rfl
  | cons a as ih =>
    by_cases h : q a = true
    · rw [List.filter_cons_of_pos h, List.map_cons, List.filterMap_cons, if_pos h, ih]
    · rw [List.filter_cons_of_neg h, List.filterMap_cons, if_neg h, ih]

/-- Letters of the reassembled string at fixed indices are the target's. -/
theorem charAt_reassemble_fixed (f : List Char) (fixed : List Nat)
    (letters : List Char) {i : Nat} (hi : i < f.length)
    (hfix : fixed.contains i = true) :
    charAt (reassemble f fixed (List.range f.length) letters) i = charAt f i := by
  have hS : (reassemble f fixed (List.range f.length) letters).length = f.length := by
    simpa using reassemble_length f fixed (List.range f.length) letters
  have hzl : i < ((List.range f.length).zip
      (reassemble f fixed (List.range f.length) letters)).length := by
    simp [hS]
    omega
  have hi' : i < (reassemble f fixed (List.range f.length) letters).length := by
    omega
  have hpair : ((List.range f.length).zip
      (reassemble f fixed (List.range f.length) letters))[i] =
      (i, (reassemble f fixed (List.range f.length) letters)[i]) := by
    simp [List.getElem_zip, List.getElem_range]
  have hmem := List.getElem_mem hzl
  rw [hpair] at hmem
  have := reassemble_fixed f fixed (List.range f.length) letters _ hmem hfix
  rw [charAt, List.getD_eq_getElem?_getD, List.getElem?_eq_getElem hi']
  exact this

/-- Letters of the reassembled string at the non-fixed positions, in order,
are exactly the supplied letter list. -/
theorem lettersAt_reassemble (f : List Char) (fixed : List Nat)
    (letters : List Char)
    (hlen : letters.length = (nonFixedPositions f.length fixed).length) :
    lettersAt (reassemble f fixed (List.range f.length) letters)
      (nonFixedPositions f.length fixed) = letters := by
  have hS : (reassemble f fixed (List.range f.length) letters).length = f.length := by
    simpa using reassemble_length f fixed (List.range f.length) letters
  have hnf := reassemble_nonfixed f fixed (List.range f.length) letters
    (by simpa [nonFixedPositions] using hlen)
  rw [zip_range_eq_map (reassemble f fixed (List.range f.length) letters)
    f.length hS, List.filterMap_map] at hnf
  rw [lettersAt, nonFixedPositions, filter_map_eq_filterMap]
  rw [← hnf]
  apply List.filterMap_congr
  intro i _
  dsimp only [Function.comp, nonFixedProj, charAt]
  by_cases h : fixed.contains i = true
  · have hb : (!(fixed.contains i)) = false := by rw [h]; rfl
    rw [hb, if_neg Bool.false_ne_true, if_pos h]
  · have hc : fixed.contains i = false := Bool.eq_false_iff.mpr h
    have hb : (!(fixed.contains i)) = true := by rw [hc]; rfl
    rw [hb, if_pos rfl, if_neg h, hnf]

/-- C3: for a target of length at least `fixed_count` and any sampled list
of `fixed_count` distinct in-range fixed positions, `shuffler` returns a
string agreeing with the target at every returned fixed index, preserving
the multiset of letters at the non-fixed positions, and a fixed-index list
of exactly `fixed_count` distinct in-range entries sorted ascending. -/
theorem shuffler_spec (σ1 σ2 : List Char → List Char)
    (fixed_positions : List Nat) (flat21 : List Char) (fixed_count : Nat)
    (h1 : PermOracleL σ1) (h2 : PermOracleL σ2)
    (hcnt : fixed_positions.length = fixed_count)
    (hnd : fixed_positions.Nodup)
    (hmem : ∀ i ∈ fixed_positions, i < flat21.length) :
    (∀ i ∈ (shuffler σ1 σ2 fixed_positions flat21).2,
      charAt (shuffler σ1 σ2 fixed_positions flat21).1 i = charAt flat21 i) ∧
    (lettersAt (shuffler σ1 σ2 fixed_positions flat21).1
        (nonFixedPositions flat21.length fixed_positions)).Perm
      (lettersAt flat21 (nonFixedPositions flat21.length fixed_positions)) ∧
    (shuffler σ1 σ2 fixed_positions flat21).2.length = fixed_count ∧
    (shuffler σ1 σ2 fixed_positions flat21).2.Nodup ∧
    (∀ i ∈ (shuffler σ1 σ2 fixed_positions flat21).2, i < flat21.length) ∧
    List.Sorted (· ≤ ·) (shuffler σ1 σ2 fixed_positions flat21).2 := by
  have hperm2 : ((shuffler σ1 σ2 fixed_positions flat21).2).Perm fixed_positions :=
    List.perm_insertionSort (· ≤ ·) fixed_positions
  have hts : (lettersAt flat21 (nonFixedPositions flat21.length fixed_positions)).length =
      (nonFixedPositions flat21.length fixed_positions).length := by
    simp [lettersAt]
  have hfst : (shuffler σ1 σ2 fixed_positions flat21).1 =
      if reassemble flat21 fixed_positions (List.range flat21.length)
          (σ1 (lettersAt flat21 (nonFixedPositions flat21.length fixed_positions))) =
          flat21 then
        reassemble flat21 fixed_positions (List.range flat21.length)
          (σ2 (σ1 (lettersAt flat21 (nonFixedPositions flat21.length fixed_positions))))
      else
        reassemble flat21 fixed_positions (List.range flat21.length)
          (σ1 (lettersAt flat21 (nonFixedPositions flat21.length fixed_positions))) := rfl
  have hmain : ∀ letters : List Char,
      letters.Perm (lettersAt flat21 (nonFixedPositions flat21.length fixed_positions)) →
      (∀ i ∈ (shuffler σ1 σ2 fixed_positions flat21).2,
        charAt (reassemble flat21 fixed_positions (List.range flat21.length) letters) i =
          charAt flat21 i) ∧
      (lettersAt (reassemble flat21 fixed_positions (List.range flat21.length) letters)
          (nonFixedPositions flat21.length fixed_positions)).Perm
        (lettersAt flat21 (nonFixedPositions flat21.length fixed_positions)) := by
    intro letters hlp
    constructor
    · intro i hi
      have hif : i ∈ fixed_positions := hperm2.mem_iff.mp hi
      have hic : fixed_positions.contains i = true := List.elem_iff.mpr hif
      exact charAt_reassemble_fixed flat21 fixed_positions letters
        (hmem i hif) hic
    · have := lettersAt_reassemble flat21 fixed_positions letters
        (by rw [hlp.length_eq, hts])
      rw [this]
      exact hlp
  constructor
  · intro i hi
    rw [hfst]
    by_cases heq : reassemble flat21 fixed_positions (List.range flat21.length)
        (σ1 (lettersAt flat21 (nonFixedPositions flat21.length fixed_positions))) =
        flat21
    · rw [if_pos heq]
      exact (hmain _ (((h2 _).trans (h1 _)))).1 i hi
    · rw [if_neg heq]
      exact (hmain _ (h1 _)).1 i hi
  constructor
  · rw [hfst]
    by_cases heq : reassemble flat21 fixed_positions (List.range flat21.length)
        (σ1 (lettersAt flat21 (nonFixedPositions flat21.length fixed_positions))) =
        flat21
    · rw [if_pos heq]
      exact (hmain _ (((h2 _).trans (h1 _)))).2
    · rw [if_neg heq]
      exact (hmain _ (h1 _)).2
  refine ⟨by rw [hperm2.length_eq, hcnt], hperm2.nodup_iff.mpr hnd, ?_, ?_⟩
  · intro i hi
    exact hmem i (hperm2.mem_iff.mp hi)
  · exact List.sorted_insertionSort (· ≤ ·) fixed_positions

/-- Witness for C3: target `"abc"`, fixed position 1, both shuffles reverse. -/
theorem shuffler_spec_witness :
    (charAt (shuffler List.reverse List.reverse [1] ['a','b','c']).1 1 =
      charAt ['a','b','c'] 1) ∧
    ((lettersAt (shuffler List.reverse List.reverse [1] ['a','b','c']).1
        (nonFixedPositions 3 [1])).Perm
      (lettersAt ['a','b','c'] (nonFixedPositions 3 [1]))) ∧
    (shuffler List.reverse List.reverse [1] ['a','b','c']).2.length = 1 ∧
    (shuffler List.reverse List.reverse [1] ['a','b','c']).2.Nodup ∧
    (1 : Nat) < 3 ∧
    List.Sorted (· ≤ ·) (shuffler List.reverse List.reverse [1] ['a','b','c']).2 :=
  ⟨(shuffler_spec List.reverse List.reverse [1] ['a','b','c'] 1
      (fun l => l.reverse_perm) (fun l => l.reverse_perm) rfl (by decide)
      (by decide)).1 1 (by decide),
   (shuffler_spec List.reverse List.reverse [1] ['a','b','c'] 1
      (fun l => l.reverse_perm) (fun l => l.reverse_perm) rfl (by decide)
      (by decide)).2.1,
   (shuffler_spec List.reverse List.reverse [1] ['a','b','c'] 1
      (fun l => l.reverse_perm) (fun l => l.reverse_perm) rfl (by decide)
      (by decide)).2.2.1,
   (shuffler_spec List.reverse List.reverse [1] ['a','b','c'] 1
      (fun l => l.reverse_perm) (fun l => l.reverse_perm) rfl (by decide)
      (by decide)).2.2.2.1,
   (shuffler_spec List.reverse List.reverse [1] ['a','b','c'] 1
      (fun l => l.reverse_perm) (fun l => l.reverse_perm) rfl (by decide)
      (by decide)).2.2.2.2.1 1 (by decide),
   (shuffler_spec List.reverse List.reverse [1] ['a','b','c'] 1
      (fun l => l.reverse_perm) (fun l => l.reverse_perm) rfl (by decide)
      (by decide)).2.2.2.2.2⟩

/-- C4: if the first reassembled string equals the target, `shuffler`
performs exactly one re-permutation (`σ2` applied once to the already
shuffled letters), keeps the same fixed positions, returns the second
reassembled string unconditionally — whether or not it still equals the
target — and the fixed letters still match the target. -/
theorem shuffler_retry_once (σ1 σ2 : List Char → List Char)
    (fixed_positions : List Nat) (flat21 : List Char)
    (heq : reassemble flat21 fixed_positions (List.range flat21.length)
      (σ1 (lettersAt flat21 (nonFixedPositions flat21.length fixed_positions))) =
      flat21) :
    shuffler σ1 σ2 fixed_positions flat21 =
      (reassemble flat21 fixed_positions (List.range flat21.length)
        (σ2 (σ1 (lettersAt flat21
          (nonFixedPositions flat21.length fixed_positions)))),
       List.insertionSort (· ≤ ·) fixed_positions) ∧
    ∀ i, fixed_positions.contains i = true → i < flat21.length →
      charAt (shuffler σ1 σ2 fixed_positions flat21).1 i = charAt flat21 i := by
  have hfst : shuffler σ1 σ2 fixed_positions flat21 =
      (reassemble flat21 fixed_positions (List.range flat21.length)
        (σ2 (σ1 (lettersAt flat21
          (nonFixedPositions flat21.length fixed_positions)))),
       List.insertionSort (· ≤ ·) fixed_positions) := by
    show (if reassemble flat21 fixed_positions (List.range flat21.length)
          (σ1 (lettersAt flat21
            (nonFixedPositions flat21.length fixed_positions))) = flat21 then
        reassemble flat21 fixed_positions (List.range flat21.length)
          (σ2 (σ1 (lettersAt flat21
            (nonFixedPositions flat21.length fixed_positions))))
      else
        reassemble flat21 fixed_positions (List.range flat21.length)
          (σ1 (lettersAt flat21
            (nonFixedPositions flat21.length fixed_positions))),
      List.insertionSort (· ≤ ·) fixed_positions) = _
    rw [if_pos heq]
  refine ⟨hfst, ?_⟩
  intro i hic hi
  rw [hfst]
  exact charAt_reassemble_fixed flat21 fixed_positions _ hi hic

/-- Witness for C4: target `"abc"`, fixed position 1, identity first shuffle
(so the first reassembly equals the target) and reverse second shuffle; the
redo's output is returned even though it differs from the target, and the
fixed letter is preserved. -/
theorem shuffler_retry_once_witness :
    shuffler id List.reverse [1] ['a','b','c'] =
      (reassemble ['a','b','c'] [1] (List.range 3)
        (List.reverse (id (lettersAt ['a','b','c'] (nonFixedPositions 3 [1])))),
       List.insertionSort (· ≤ ·) [1]) ∧
    charAt (shuffler id List.reverse [1] ['a','b','c']).1 1 =
      charAt ['a','b','c'] 1 :=
  ⟨(shuffler_retry_once id List.reverse [1] ['a','b','c'] rfl).1,
   (shuffler_retry_once id List.reverse [1] ['a','b','c'] rfl).2 1 rfl
     (by decide)⟩

/-- Well-formed masked grid: 5x5, the marker exactly at the hole cells, a
present non-marker character at every letter cell (what `grid_to_masked`
produces for a solved grid). -/
def WFMaskedGrid (m : Grid) : Prop :=
  m.length = 5 ∧ (∀ r, r < 5 → (m.getD r []).length = 5) ∧
  ∀ r, r < 5 → ∀ c, c < 5 →
    (maskAt r c = false → cellAt m r c = some '#') ∧
    (maskAt r c = true → cellAt m r c ≠ none ∧ cellAt m r c ≠ some '#')

/-- The per-row extraction `masked_to_flat21` performs. -/
def rowExtract (row : List (Option Char)) : List Char :=
  (List.range 5).filterMap (fun c =>
    if row.getD c none = some '#' then none else row.getD c none)

/-- `masked_to_flat21` row by row. -/
theorem masked_to_flat21_eq (m : Grid) :
    masked_to_flat21 m =
      ((List.range 5).map (fun r => rowExtract (m.getD r []))).flatten := rfl

/-- Extraction of a full (letter) row. -/
theorem rowExtract_full (a b c d e : Char) (ha : a ≠ '#') (hb : b ≠ '#')
    (hc : c ≠ '#') (hd : d ≠ '#') (he : e ≠ '#') :
    rowExtract [some a, some b, some c, some d, some e] = [a, b, c, d, e] := by
  have h0 : (if ([some a, some b, some c, some d, some e].getD 0 none =
      some ('#' : Char)) then (none : Option Char)
      else [some a, some b, some c, some d, some e].getD 0 none) = some a :=
    if_neg (fun h => ha (Option.some.inj h))
  have h1 : (if ([some a, some b, some c, some d, some e].getD 1 none =
      some ('#' : Char)) then (none : Option Char)
      else [some a, some b, some c, some d, some e].getD 1 none) = some b :=
    if_neg (fun h => hb (Option.some.inj h))
  have h2 : (if ([some a, some b, some c, some d, some e].getD 2 none =
      some ('#' : Char)) then (none : Option Char)
      else [some a, some b, some c, some d, some e].getD 2 none) = some c :=
    if_neg (fun h => hc (Option.some.inj h))
  have h3 : (if ([some a, some b, some c, some d, some e].getD 3 none =
      some ('#' : Char)) then (none : Option Char)
      else [some a, some b, some c, some d, some e].getD 3 none) = some d :=
    if_neg (fun h => hd (Option.some.inj h))
  have h4 : (if ([some a, some b, some c, some d, some e].getD 4 none =
      some ('#' : Char)) then (none : Option Char)
      else [some a, some b, some c, some d, some e].getD 4 none) = some e :=
    if_neg (fun h => he (Option.some.inj h))
  unfold rowExtract
  rw [show List.range 5 = [0, 1, 2, 3, 4] from rfl]
  simp only [List.filterMap_cons, List.filterMap_nil]
  rw [h0, h1, h2, h3, h4]

/-- Extraction of a hole row (letters at columns 0, 2, 4). -/
theorem rowExtract_holes (a b c : Char) (ha : a ≠ '#') (hb : b ≠ '#')
    (hc : c ≠ '#') :
    rowExtract [some a, some '#', some b, some '#', some c] = [a, b, c] := by
  have h0 : (if ([some a, some '#', some b, some '#', some c].getD 0 none =
      some ('#' : Char)) then (none : Option Char)
      else [some a, some '#', some b, some '#', some c].getD 0 none) = some a :=
    if_neg (fun h => ha (Option.some.inj h))
  have h2 : (if ([some a, some '#', some b, some '#', some c].getD 2 none =
      some ('#' : Char)) then (none : Option Char)
      else [some a, some '#', some b, some '#', some c].getD 2 none) = some b :=
    if_neg (fun h => hb (Option.some.inj h))
  have h4 : (if ([some a, some '#', some b, some '#', some c].getD 4 none =
      some ('#' : Char)) then (none : Option Char)
      else [some a, some '#', some b, some '#', some c].getD 4 none) = some c :=
    if_neg (fun h => hc (Option.some.inj h))
  unfold rowExtract
  rw [show List.range 5 = [0, 1, 2, 3, 4] from rfl]
  simp only [List.filterMap_cons, List.filterMap_nil]
  rw [h0, h2, h4]
  rfl

/-- C6: re-expanding the 21-character linearization of a well-formed masked
grid, using the fixed hole mask and the row-major hole-skipping order,
reconstructs the identical masked grid (so `masked_to_flat21` is reversible,
hence injective, on masked grids). -/
theorem flat21_roundtrip (m : Grid) (hwf : WFMaskedGrid m) :
    flat21_to_masked (masked_to_flat21 m) = m := by
  obtain ⟨h5, hrows, hcells⟩ := hwf
  rcases m with _ | ⟨r0, _ | ⟨r1, _ | ⟨r2, _ | ⟨r3, _ | ⟨r4, rest⟩⟩⟩⟩⟩
  · simp at h5
  · simp at h5
  · simp at h5
  · simp at h5
  · simp at h5
  have hrest : rest.length = 0 := by
    simp only [List.length_cons] at h5
    omega
  obtain rfl := List.eq_nil_of_length_eq_zero hrest
  have hl0 : r0.length = 5 := hrows 0 (by omega)
  rcases r0 with _ | ⟨x00, _ | ⟨x01, _ | ⟨x02, _ | ⟨x03, _ | ⟨x04, rest0⟩⟩⟩⟩⟩
  · simp at hl0
  · simp at hl0
  · simp at hl0
  · simp at hl0
  · simp at hl0
  have hx0 : rest0.length = 0 := by
    simp only [List.length_cons] at hl0
    omega
  obtain rfl := List.eq_nil_of_length_eq_zero hx0
  have hl1 : r1.length = 5 := hrows 1 (by omega)
  rcases r1 with _ | ⟨x10, _ | ⟨x11, _ | ⟨x12, _ | ⟨x13, _ | ⟨x14, rest1⟩⟩⟩⟩⟩
  · simp at hl1
  · simp at hl1
  · simp at hl1
  · simp at hl1
  · simp at hl1
  have hx1 : rest1.length = 0 := by
    simp only [List.length_cons] at hl1
    omega
  obtain rfl := List.eq_nil_of_length_eq_zero hx1
  have hl2 : r2.length = 5 := hrows 2 (by omega)
  rcases r2 with _ | ⟨x20, _ | ⟨x21, _ | ⟨x22, _ | ⟨x23, _ | ⟨x24, rest2⟩⟩⟩⟩⟩
  · simp at hl2
  · simp at hl2
  · simp at hl2
  · simp at hl2
  · simp at hl2
  have hx2 : rest2.length = 0 := by
    simp only [List.length_cons] at hl2
    omega
  obtain rfl := List.eq_nil_of_length_eq_zero hx2
  have hl3 : r3.length = 5 := hrows 3 (by omega)
  rcases r3 with _ | ⟨x30, _ | ⟨x31, _ | ⟨x32, _ | ⟨x33, _ | ⟨x34, rest3⟩⟩⟩⟩⟩
  · simp at hl3
  · simp at hl3
  · simp at hl3
  · simp at hl3
  · simp at hl3
  have hx3 : rest3.length = 0 := by
    simp only [List.length_cons] at hl3
    omega
  obtain rfl := List.eq_nil_of_length_eq_zero hx3
  have hl4 : r4.length = 5 := hrows 4 (by omega)
  rcases r4 with _ | ⟨x40, _ | ⟨x41, _ | ⟨x42, _ | ⟨x43, _ | ⟨x44, rest4⟩⟩⟩⟩⟩
  · simp at hl4
  · simp at hl4
  · simp at hl4
  · simp at hl4
  · simp at hl4
  have hx4 : rest4.length = 0 := by
    simp only [List.length_cons] at hl4
    omega
  obtain rfl := List.eq_nil_of_length_eq_zero hx4
  have h00 := (hcells 0 (by omega) 0 (by omega)).2 rfl
  obtain ⟨ch00, hch00⟩ := Option.ne_none_iff_exists'.mp h00.1
  obtain rfl : x00 = some ch00 := hch00
  have hn00 : ch00 ≠ '#' := fun e => h00.2 (by subst e; rfl)
  have h01 := (hcells 0 (by omega) 1 (by omega)).2 rfl
  obtain ⟨ch01, hch01⟩ := Option.ne_none_iff_exists'.mp h01.1
  obtain rfl : x01 = some ch01 := hch01
  have hn01 : ch01 ≠ '#' := fun e => h01.2 (by subst e; rfl)
  have h02 := (hcells 0 (by omega) 2 (by omega)).2 rfl
  obtain ⟨ch02, hch02⟩ := Option.ne_none_iff_exists'.mp h02.1
  obtain rfl : x02 = some ch02 := hch02
  have hn02 : ch02 ≠ '#' := fun e => h02.2 (by subst e; rfl)
  have h03 := (hcells 0 (by omega) 3 (by omega)).2 rfl
  obtain ⟨ch03, hch03⟩ := Option.ne_none_iff_exists'.mp h03.1
  obtain rfl : x03 = some ch03 := hch03
  have hn03 : ch03 ≠ '#' := fun e => h03.2 (by subst e; rfl)
  have h04 := (hcells 0 (by omega) 4 (by omega)).2 rfl
  obtain ⟨ch04, hch04⟩ := Option.ne_none_iff_exists'.mp h04.1
  obtain rfl : x04 = some ch04 := hch04
  have hn04 : ch04 ≠ '#' := fun e => h04.2 (by subst e; rfl)
  have h10 := (hcells 1 (by omega) 0 (by omega)).2 rfl
  obtain ⟨ch10, hch10⟩ := Option.ne_none_iff_exists'.mp h10.1
  obtain rfl : x10 = some ch10 := hch10
  have hn10 : ch10 ≠ '#' := fun e => h10.2 (by subst e; rfl)
  obtain rfl : x11 = some '#' := (hcells 1 (by omega) 1 (by omega)).1 rfl
  have h12 := (hcells 1 (by omega) 2 (by omega)).2 rfl
  obtain ⟨ch12, hch12⟩ := Option.ne_none_iff_exists'.mp h12.1
  obtain rfl : x12 = some ch12 := hch12
  have hn12 : ch12 ≠ '#' := fun e => h12.2 (by subst e; rfl)
  obtain rfl : x13 = some '#' := (hcells 1 (by omega) 3 (by omega)).1 rfl
  have h14 := (hcells 1 (by omega) 4 (by omega)).2 rfl
  obtain ⟨ch14, hch14⟩ := Option.ne_none_iff_exists'.mp h14.1
  obtain rfl : x14 = some ch14 := hch14
  have hn14 : ch14 ≠ '#' := fun e => h14.2 (by subst e; rfl)
  have h20 := (hcells 2 (by omega) 0 (by omega)).2 rfl
  obtain ⟨ch20, hch20⟩ := Option.ne_none_iff_exists'.mp h20.1
  obtain rfl : x20 = some ch20 := hch20
  have hn20 : ch20 ≠ '#' := fun e => h20.2 (by subst e; rfl)
  have h21 := (hcells 2 (by omega) 1 (by omega)).2 rfl
  obtain ⟨ch21, hch21⟩ := Option.ne_none_iff_exists'.mp h21.1
  obtain rfl : x21 = some ch21 := hch21
  have hn21 : ch21 ≠ '#' := fun e => h21.2 (by subst e; rfl)
  have h22 := (hcells 2 (by omega) 2 (by omega)).2 rfl
  obtain ⟨ch22, hch22⟩ := Option.ne_none_iff_exists'.mp h22.1
  obtain rfl : x22 = some ch22 := hch22
  have hn22 : ch22 ≠ '#' := fun e => h22.2 (by subst e; rfl)
  have h23 := (hcells 2 (by omega) 3 (by omega)).2 rfl
  obtain ⟨ch23, hch23⟩ := Option.ne_none_iff_exists'.mp h23.1
  obtain rfl : x23 = some ch23 := hch23
  have hn23 : ch23 ≠ '#' := fun e => h23.2 (by subst e; rfl)
  have h24 := (hcells 2 (by omega) 4 (by omega)).2 rfl
  obtain ⟨ch24, hch24⟩ := Option.ne_none_iff_exists'.mp h24.1
  obtain rfl : x24 = some ch24 := hch24
  have hn24 : ch24 ≠ '#' := fun e => h24.2 (by subst e; rfl)
  have h30 := (hcells 3 (by omega) 0 (by omega)).2 rfl
  obtain ⟨ch30, hch30⟩ := Option.ne_none_iff_exists'.mp h30.1
  obtain rfl : x30 = some ch30 := hch30
  have hn30 : ch30 ≠ '#' := fun e => h30.2 (by subst e; rfl)
  obtain rfl : x31 = some '#' := (hcells 3 (by omega) 1 (by omega)).1 rfl
  have h32 := (hcells 3 (by omega) 2 (by omega)).2 rfl
  obtain ⟨ch32, hch32⟩ := Option.ne_none_iff_exists'.mp h32.1
  obtain rfl : x32 = some ch32 := hch32
  have hn32 : ch32 ≠ '#' := fun e => h32.2 (by subst e; rfl)
  obtain rfl : x33 = some '#' := (hcells 3 (by omega) 3 (by omega)).1 rfl
  have h34 := (hcells 3 (by omega) 4 (by omega)).2 rfl
  obtain ⟨ch34, hch34⟩ := Option.ne_none_iff_exists'.mp h34.1
  obtain rfl : x34 = some ch34 := hch34
  have hn34 : ch34 ≠ '#' := fun e => h34.2 (by subst e; rfl)
  have h40 := (hcells 4 (by omega) 0 (by omega)).2 rfl
  obtain ⟨ch40, hch40⟩ := Option.ne_none_iff_exists'.mp h40.1
  obtain rfl : x40 = some ch40 := hch40
  have hn40 : ch40 ≠ '#' := fun e => h40.2 (by subst e; rfl)
  have h41 := (hcells 4 (by omega) 1 (by omega)).2 rfl
  obtain ⟨ch41, hch41⟩ := Option.ne_none_iff_exists'.mp h41.1
  obtain rfl : x41 = some ch41 := hch41
  have hn41 : ch41 ≠ '#' := fun e => h41.2 (by subst e; rfl)
  have h42 := (hcells 4 (by omega) 2 (by omega)).2 rfl
  obtain ⟨ch42, hch42⟩ := Option.ne_none_iff_exists'.mp h42.1
  obtain rfl : x42 = some ch42 := hch42
  have hn42 : ch42 ≠ '#' := fun e => h42.2 (by subst e; rfl)
  have h43 := (hcells 4 (by omega) 3 (by omega)).2 rfl
  obtain ⟨ch43, hch43⟩ := Option.ne_none_iff_exists'.mp h43.1
  obtain rfl : x43 = some ch43 := hch43
  have hn43 : ch43 ≠ '#' := fun e => h43.2 (by subst e; rfl)
  have h44 := (hcells 4 (by omega) 4 (by omega)).2 rfl
  obtain ⟨ch44, hch44⟩ := Option.ne_none_iff_exists'.mp h44.1
  obtain rfl : x44 = some ch44 := hch44
  have hn44 : ch44 ≠ '#' := fun e => h44.2 (by subst e; rfl)
  have hflat : masked_to_flat21
      [[some ch00, some ch01, some ch02, some ch03, some ch04],
       [some ch10, some '#', some ch12, some '#', some ch14],
       [some ch20, some ch21, some ch22, some ch23, some ch24],
       [some ch30, some '#', some ch32, some '#', some ch34],
       [some ch40, some ch41, some ch42, some ch43, some ch44]] =
      [ch00, ch01, ch02, ch03, ch04,
      ch10, ch12, ch14,
      ch20, ch21, ch22, ch23, ch24,
      ch30, ch32, ch34,
      ch40, ch41, ch42, ch43, ch44] := by
    show ([rowExtract [some ch00, some ch01, some ch02, some ch03, some ch04],
           rowExtract [some ch10, some '#', some ch12, some '#', some ch14],
           rowExtract [some ch20, some ch21, some ch22, some ch23, some ch24],
           rowExtract [some ch30, some '#', some ch32, some '#', some ch34],
           rowExtract [some ch40, some ch41, some ch42, some ch43, some ch44]]).flatten = _
    rw [rowExtract_full _ _ _ _ _ hn00 hn01 hn02 hn03 hn04,
        rowExtract_holes _ _ _ hn10 hn12 hn14,
        rowExtract_full _ _ _ _ _ hn20 hn21 hn22 hn23 hn24,
        rowExtract_holes _ _ _ hn30 hn32 hn34,
        rowExtract_full _ _ _ _ _ hn40 hn41 hn42 hn43 hn44]
    rfl
  rw [hflat]
  rfl

/-- Witness for C6 at the demo masked grid. -/
theorem flat21_roundtrip_witness :
    WFMaskedGrid (grid_to_masked (mkGrid dw0 dw1 dw2 dw3 dw4 dw5)) ∧
    flat21_to_masked (masked_to_flat21
        (grid_to_masked (mkGrid dw0 dw1 dw2 dw3 dw4 dw5))) =
      grid_to_masked (mkGrid dw0 dw1 dw2 dw3 dw4 dw5) :=
  ⟨by unfold WFMaskedGrid; decide, flat21_roundtrip _ (by unfold WFMaskedGrid; decide)⟩
